import Mathlib

/-!
Verification of the Cyberstar analog-signal simulator core: a shallow
embedding of the BMC line codec, frame scheduler, frame synchronizer,
hardware-conformance thresholds and rshw signal-data serializer, with
theorems checking the documented properties of each component.

Machine integers are modelled as `Int`/`Nat`; the Python floats used for
tolerance-window and rate computations are modelled exactly as `ℚ` (the
values involved are small decimal literals and exact ratios); PCM byte
buffers are modelled at int16-sample granularity (every buffer write in
the source moves whole little-endian int16 samples at even byte
offsets) and packed to bytes with `to_raw_bytes`.
-/

namespace SCME

/-! ## Hardware constants (SMM/constants.py) -/

def SAMPLE_RATE : Nat := 44100

def BAUD_RATE : Nat := 4800

/-- SAMPLES_PER_BIT = SAMPLE_RATE // BAUD_RATE = 9 (floor division). -/
def SAMPLES_PER_BIT : Nat := SAMPLE_RATE / BAUD_RATE

def BMC_HALF_A : Nat := SAMPLES_PER_BIT / 2

def BMC_HALF_B : Nat := SAMPLES_PER_BIT - BMC_HALF_A

def BMC_HIGH : Int := 32767

def BMC_LOW : Int := -32768

def TD_FRAME_BITS : Nat := 94

def BD_FRAME_BITS : Nat := 96

/-- TD blank (reserved) 1-based bit numbers, always 0. -/
def TD_BLANK_BITS : List Nat := [56, 65, 70]

/-- BD blank (reserved) 1-based bit numbers, always 0. -/
def BD_BLANK_BITS : List Nat := [45]

/-- Track selector: top-drawer or bottom-drawer control track. -/
inductive Track where
  | TD
  | BD
deriving DecidableEq

def frameBits : Track → Nat
  | .TD => TD_FRAME_BITS
  | .BD => BD_FRAME_BITS

def blankBits : Track → List Nat
  | .TD => TD_BLANK_BITS
  | .BD => BD_BLANK_BITS

/-- Samples of one full frame: frame_bits * SAMPLES_PER_BIT (846 or 864). -/
def frameSamples (t : Track) : Nat := frameBits t * SAMPLES_PER_BIT

/-! ## Channel maps (SMM/constants.py, identical tables inlined in
SGM/export_bridge.py): channel name to 1-based bit number, in source
order; Python dict lookup with unique keys is association-list lookup. -/

def TD_CHANNELS : List (String × Nat) := [
  ("rolfe_mouth", 1),
  ("rolfe_left_eyelid", 2),
  ("rolfe_right_eyelid", 3),
  ("rolfe_eyes_left", 4),
  ("rolfe_eyes_right", 5),
  ("rolfe_head_left", 6),
  ("rolfe_head_right", 7),
  ("rolfe_head_up", 8),
  ("rolfe_left_ear", 9),
  ("rolfe_right_ear", 10),
  ("rolfe_left_arm_raise", 11),
  ("rolfe_left_arm_twist", 12),
  ("rolfe_left_elbow", 13),
  ("rolfe_body_twist_left", 14),
  ("rolfe_body_twist_right", 15),
  ("rolfe_body_lean", 16),
  ("rolfe_right_arm_raise", 17),
  ("rolfe_right_arm_twist", 18),
  ("rolfe_right_elbow_twist", 19),
  ("rolfe_earl_head_tilt", 20),
  ("duke_head_right", 21),
  ("duke_head_up", 22),
  ("duke_left_ear", 23),
  ("duke_right_ear", 24),
  ("duke_head_left", 25),
  ("duke_left_eyelid", 26),
  ("duke_right_eyelid", 27),
  ("duke_eyes_left", 28),
  ("duke_eyes_right", 29),
  ("duke_mouth", 30),
  ("duke_right_elbow", 31),
  ("duke_left_foot_hihat", 32),
  ("duke_left_arm_swing", 33),
  ("duke_right_arm_swing", 34),
  ("duke_left_elbow", 35),
  ("earl_mouth", 36),
  ("earl_eyebrow", 37),
  ("props_sun_mouth", 38),
  ("props_sun_raise", 39),
  ("specials_dual_pressure_td", 40),
  ("fats_left_eyelid", 41),
  ("fats_right_eyelid", 42),
  ("fats_eyes_left", 43),
  ("fats_eyes_right", 44),
  ("fats_mouth", 45),
  ("props_moon_mouth", 46),
  ("props_moon_raise", 47),
  ("props_looney_bird_hands", 48),
  ("props_antioch_down", 49),
  ("props_baby_bear_raise", 50),
  ("fats_head_tip_left", 51),
  ("fats_head_tip_right", 52),
  ("fats_head_up", 53),
  ("fats_head_left", 54),
  ("fats_head_right", 55),
  ("fats_left_arm_swing", 57),
  ("fats_right_arm_swing", 58),
  ("fats_left_elbow", 59),
  ("fats_right_elbow", 60),
  ("fats_foot_tap", 61),
  ("fats_body_lean", 62),
  ("duke_right_foot_bass_drum", 63),
  ("duke_body_lean", 64),
  ("organ_top_blue", 66),
  ("organ_top_red", 67),
  ("organ_top_amber", 68),
  ("organ_top_green", 69),
  ("organ_leg_top", 71),
  ("organ_leg_mid", 72),
  ("organ_leg_bottom", 73),
  ("organ_cont_strobe", 74),
  ("organ_flash_strobe", 75),
  ("sign_inner", 76),
  ("sign_mid", 77),
  ("sign_outer", 78),
  ("sign_cont_strobe", 79),
  ("sign_flash_strobe", 80),
  ("spot_mitzi", 81),
  ("spot_beach_bear", 82),
  ("spot_looney_bird", 83),
  ("spot_billy_bob", 84),
  ("spot_fats", 85),
  ("spot_duke", 86),
  ("spot_rolfe", 87),
  ("spot_earl", 88),
  ("curtain_stage_right_open", 89),
  ("curtain_stage_right_close", 90),
  ("curtain_center_stage_open", 91),
  ("curtain_center_stage_close", 92),
  ("curtain_stage_left_open", 93),
  ("curtain_stage_left_close", 94)]

def BD_CHANNELS : List (String × Nat) := [
  ("beachbear_left_eyelid", 1),
  ("beachbear_right_eyelid", 2),
  ("beachbear_eye_cross", 3),
  ("beachbear_left_hand_slide", 4),
  ("beachbear_guitar_raise", 5),
  ("beachbear_head_left", 6),
  ("beachbear_head_right", 7),
  ("beachbear_head_up", 8),
  ("beachbear_left_leg_kick", 9),
  ("beachbear_right_leg_kick", 10),
  ("beachbear_right_arm_raise", 11),
  ("beachbear_right_arm_twist", 12),
  ("beachbear_right_elbow_twist", 13),
  ("beachbear_right_wrist", 14),
  ("beachbear_body_lean", 15),
  ("beachbear_mouth", 16),
  ("looneybird_mouth", 17),
  ("mitzi_right_arm_raise", 18),
  ("mitzi_right_elbow", 19),
  ("mitzi_right_arm_twist", 20),
  ("looneybird_head_right", 21),
  ("looneybird_raise", 22),
  ("mitzi_left_arm_raise", 23),
  ("mitzi_left_elbow", 24),
  ("mitzi_left_arm_twist", 25),
  ("mitzi_left_ear", 26),
  ("mitzi_right_ear", 27),
  ("mitzi_head_left", 28),
  ("mitzi_head_right", 29),
  ("mitzi_head_up", 30),
  ("mitzi_left_eyelid", 31),
  ("mitzi_right_eyelid", 32),
  ("mitzi_eyes_left", 33),
  ("mitzi_eyes_right", 34),
  ("mitzi_mouth", 35),
  ("mitzi_body_twist_left", 36),
  ("mitzi_body_twist_right", 37),
  ("mitzi_body_lean", 38),
  ("billybob_left_arm_slide", 39),
  ("billybob_guitar_raise", 40),
  ("looneybird_left_eyelid", 41),
  ("looneybird_right_eyelid", 42),
  ("looneybird_eye_cross", 43),
  ("billybob_foot_tap", 44),
  ("billybob_mouth", 46),
  ("billybob_left_eyelid", 47),
  ("billybob_right_eyelid", 48),
  ("billybob_eyes_left", 49),
  ("billybob_eyes_right", 50),
  ("billybob_head_left", 51),
  ("billybob_head_right", 52),
  ("billybob_head_tip_left", 53),
  ("billybob_head_tip_right", 54),
  ("billybob_head_up", 55),
  ("billybob_right_arm_raise", 56),
  ("billybob_right_arm_twist", 57),
  ("billybob_right_elbow_twist", 58),
  ("billybob_right_wrist", 59),
  ("specials_dual_pressure_bd", 60),
  ("billybob_body_twist_left", 61),
  ("billybob_body_twist_right", 62),
  ("billybob_body_lean", 63),
  ("specials_tape_stop", 64),
  ("specials_tape_rewind", 65),
  ("flood_stage_right_blue", 66),
  ("flood_stage_right_green", 67),
  ("flood_stage_right_amber", 68),
  ("flood_stage_right_red", 69),
  ("prop_light_applause", 70),
  ("flood_center_stage_blue", 71),
  ("flood_center_stage_green", 72),
  ("flood_center_stage_amber", 73),
  ("flood_center_stage_red", 74),
  ("prop_light_drums", 75),
  ("flood_stage_left_blue", 76),
  ("flood_stage_left_green", 77),
  ("flood_stage_left_amber", 78),
  ("flood_stage_left_red", 79),
  ("prop_light_fire_still", 80),
  ("flood_backdrop_outside_blue", 81),
  ("flood_backdrop_inside_amber", 82),
  ("flood_treeline_blue", 83),
  ("flood_backdrop_inside_blue", 84),
  ("flood_treeline_red", 85),
  ("flood_bushes_green", 86),
  ("flood_bushes_red_amber", 87),
  ("spot_sun", 88),
  ("spot_moon", 89),
  ("spot_spider", 90),
  ("prop_light_gas_pump", 91),
  ("stage_light_service_stn_red", 92),
  ("stage_light_service_stn_blue", 93),
  ("stage_light_rainbow_1_red", 94),
  ("stage_light_rainbow_2_yellow", 95),
  ("spot_guitar", 96)]

def channels : Track → List (String × Nat)
  | .TD => TD_CHANNELS
  | .BD => BD_CHANNELS

/-- Reverse map lookup (TD_BIT_TO_NAME / BD_BIT_TO_NAME): bit number to
channel name; the source dicts have unique values, so the reverse dict
equals first-match search. -/
def bitToName (t : Track) (n : Nat) : Option String :=
  ((channels t).find? (fun p => p.2 == n)).map (·.1)

/-! ## Line encoder (SGM/bmc_encoder.py) -/

/-- Level transition: BMC_HIGH if level == BMC_LOW else BMC_LOW. -/
def flipLevel (lvl : Int) : Int :=
  if lvl = BMC_LOW then BMC_HIGH else BMC_LOW

/-- BMCEncoder.encode_bit: flip at bit start; bit 1 adds a mid-period
flip after BMC_HALF_A samples. Returns (samples, new level). -/
def encode_bit (lvl : Int) (bit : Nat) : List Int × Int :=
  let l1 := flipLevel lvl
  if bit ≠ 0 then
    let l2 := flipLevel l1
    (List.replicate BMC_HALF_A l1 ++ List.replicate BMC_HALF_B l2, l2)
  else
    (List.replicate SAMPLES_PER_BIT l1, l1)

/-- BMCEncoder.encode_bits: concatenation with level threading. -/
def encode_bits (lvl : Int) : List Nat → List Int × Int
  | [] => ([], lvl)
  | b :: bs =>
    let p := encode_bit lvl b
    let q := encode_bits p.2 bs
    (p.1 ++ q.1, q.2)

/-- BMCEncoder.to_raw_bytes: one int16 sample to two little-endian bytes. -/
def toLE16 (s : Int) : List Nat :=
  let u := (s % 65536).toNat
  [u % 256, u / 256]

/-- BMCEncoder.to_raw_bytes over a sample list. -/
def to_raw_bytes (samples : List Int) : List Nat :=
  (samples.map toLE16).flatten

/-! ## Line decoder (SVM/bmc_decoder.py) -/

/-- DecodedBit record of the decoder. -/
structure DecodedBit where
  bit : Nat
  sample_pos : Nat
  run_a : Nat
  run_b : Option Nat
  in_tolerance : Bool
deriving DecidableEq

/-- BitError record of the decoder. -/
structure BitError where
  sample_pos : Nat
  run_length : Nat
  reason : String
deriving DecidableEq

/-- BMCDecoder state: parameters plus the tolerance windows computed in
`__init__` (floats modelled exactly as rationals). -/
structure BMCDecoder where
  sample_rate : Nat
  baud_rate : Nat
  tolerance : ℚ
  zero_threshold : Nat
  nom_full : ℚ
  nom_half : ℚ
  full_lo : Int
  full_hi : Int
  half_lo : Int
  half_hi : Int

/-- BMCDecoder.__init__: nominal periods and tolerance windows
[floor(nom*(1-tol)), ceil(nom*(1+tol))]. -/
def mkBMCDecoder (sr baud : Nat) (tol : ℚ) (zt : Nat) : BMCDecoder :=
  let spb : ℚ := (sr : ℚ) / (baud : ℚ)
  { sample_rate := sr
    baud_rate := baud
    tolerance := tol
    zero_threshold := zt
    nom_full := spb
    nom_half := spb / 2
    full_lo := ⌊spb * (1 - tol)⌋
    full_hi := ⌈spb * (1 + tol)⌉
    half_lo := ⌊spb / 2 * (1 - tol)⌋
    half_hi := ⌈spb / 2 * (1 + tol)⌉ }

def BMCDecoder.is_full (d : BMCDecoder) (r : Nat) : Bool :=
  d.full_lo ≤ (r : Int) && (r : Int) ≤ d.full_hi

def BMCDecoder.is_half (d : BMCDecoder) (r : Nat) : Bool :=
  d.half_lo ≤ (r : Int) && (r : Int) ≤ d.half_hi

/-- Leading samples of the current run: same sign as `pos` and amplitude
at or above the threshold (inner while of `_run_lengths`). -/
def countRun (thresh : Nat) (pos : Bool) : List Int → Nat
  | [] => 0
  | x :: xs =>
    if (decide (x > 0) == pos) && decide (thresh ≤ x.natAbs) then
      countRun thresh pos xs + 1
    else 0

/-- BMCDecoder._run_lengths: (start index, length) of each contiguous
same-sign above-threshold run, skipping silence. Loops are embedded with
an explicit fuel argument bounding the iteration count (each iteration
consumes at least one sample, so fuel = list length never runs out). -/
def run_lengthsAux (thresh : Nat) : Nat → Nat → List Int → List (Nat × Nat)
  | 0, _, _ => []
  | _ + 1, _, [] => []
  | fuel + 1, i, s :: rest =>
    if s.natAbs < thresh then
      run_lengthsAux thresh fuel (i + 1) rest
    else
      let pos := decide (s > 0)
      let k := countRun thresh pos rest
      (i, k + 1) :: run_lengthsAux thresh fuel (i + k + 1) (rest.drop k)

def BMCDecoder.run_lengths (d : BMCDecoder) (samples : List Int) : List (Nat × Nat) :=
  run_lengthsAux d.zero_threshold samples.length 0 samples

/-- BMCDecoder._consume_runs: classify runs left to right into decoded
bits and errors; every step consumes one or two runs, so fuel = run
count never runs out. -/
def BMCDecoder.consume_runsFuel (d : BMCDecoder) : Nat → List (Nat × Nat) → List DecodedBit × List BitError
  | 0, _ => ([], [])
  | _ + 1, [] => ([], [])
  | fuel + 1, (pos, r) :: rest =>
    if d.is_full r then
      let p := d.consume_runsFuel fuel rest
      (⟨0, pos, r, none, true⟩ :: p.1, p.2)
    else if d.is_half r then
      match rest with
      | (pos2, r2) :: rest2 =>
        if d.is_half r2 then
          let p := d.consume_runsFuel fuel rest2
          (⟨1, pos, r, some r2, true⟩ :: p.1, p.2)
        else if d.is_full (r + r2) then
          let p := d.consume_runsFuel fuel rest2
          (⟨1, pos, r, some r2, false⟩ :: p.1, p.2)
        else
          let p := d.consume_runsFuel fuel ((pos2, r2) :: rest2)
          (p.1, ⟨pos, r, "half-run (" ++ toString r ++ ") followed by non-half (" ++
            toString r2 ++ "), sum=" ++ toString (r + r2)⟩ :: p.2)
      | [] => ([⟨1, pos, r, none, false⟩], [])
    else
      let p := d.consume_runsFuel fuel rest
      (p.1, ⟨pos, r, "run=" ++ toString r ++ " outside full=[" ++ toString d.full_lo ++
        "," ++ toString d.full_hi ++ "] and half=[" ++ toString d.half_lo ++ "," ++
        toString d.half_hi ++ "]"⟩ :: p.2)

def BMCDecoder.consume_runs (d : BMCDecoder) (runs : List (Nat × Nat)) :
    List DecodedBit × List BitError :=
  d.consume_runsFuel runs.length runs

/-- BMCDecoder.decode: run extraction then run consumption. -/
def BMCDecoder.decode (d : BMCDecoder) (samples : List Int) : List DecodedBit × List BitError :=
  d.consume_runs (d.run_lengths samples)

/-- Default decoder used by the round-trip property: 44100 Hz, 4800 baud,
tolerance 0.30, zero_threshold 200. -/
def defaultDecoder : BMCDecoder := mkBMCDecoder 44100 4800 (0.30 : ℚ) 200

/-! ## Frame synchronizer (SVM/frame_sync.py) -/

/-- DecodedFrame record of the synchronizer. -/
structure DecodedFrame where
  frame_index : Nat
  bit_offset : Nat
  bits : List Nat
  active_channels : List String
  blank_ok : Bool
deriving DecidableEq

/-- SyncResult record of the synchronizer. -/
structure SyncResult where
  locked : Bool
  lock_offset : Nat
  score : Nat
  frames : List DecodedFrame
  orphan_bits : Nat
deriving DecidableEq

def LOCK_THRESHOLD : Nat := 3

/-- Blank-bit check of one frame slice: every 0-based blank index reads 0
(`all(frame_slice[bi] == 0 for bi in blank_indices)`). -/
def blankOk (blankIdx : List Nat) (slice : List Nat) : Bool :=
  blankIdx.all (fun bi => slice.getD bi 1 == 0)

/-- Active channel names of a frame slice: 1-based positions holding 1
that appear in the reverse channel map. -/
def activeChannels (t : Track) (slice : List Nat) : List String :=
  slice.enum.filterMap (fun p => if p.2 == 1 then bitToName t (p.1 + 1) else none)

/-- Inner lock-scoring loop of `sync_frames`: count consecutive clean
frames starting at `start`, up to `rem` more, stopping at a failed
blank check or when a frame would run past `total`. -/
def frameScoreGo (bits : List Nat) (fb : Nat) (blankIdx : List Nat) (total : Nat) :
    Nat → Nat → Nat
  | 0, _ => 0
  | rem + 1, start =>
    if start + fb > total then 0
    else if blankOk blankIdx ((bits.drop start).take fb) then
      frameScoreGo bits fb blankIdx total rem (start + fb) + 1
    else 0

/-- Score of one candidate offset (up to LOCK_THRESHOLD frames). -/
def frameScore (bits : List Nat) (fb : Nat) (blankIdx : List Nat) (total candidate : Nat) :
    Nat :=
  frameScoreGo bits fb blankIdx total LOCK_THRESHOLD candidate

/-- Phase-1 search loop of `sync_frames`: walk candidates below
`searchEnd`, keep the best score, stop early once a candidate reaches
LOCK_THRESHOLD. Returns (best_offset, best_score). -/
def searchLoop (bits : List Nat) (fb : Nat) (blankIdx : List Nat) (total : Nat)
    (searchEnd : Int) : Nat → Nat → Nat → Nat → Nat × Nat
  | 0, _, bestOff, bestScore => (bestOff, bestScore)
  | fuel + 1, candidate, bestOff, bestScore =>
    if (candidate : Int) < searchEnd then
      let sc := frameScore bits fb blankIdx total candidate
      if sc > bestScore then
        if sc ≥ LOCK_THRESHOLD then (candidate, sc)
        else searchLoop bits fb blankIdx total searchEnd fuel (candidate + 1) candidate sc
      else searchLoop bits fb blankIdx total searchEnd fuel (candidate + 1) bestOff bestScore
    else (bestOff, bestScore)

/-- Phase-2 extraction loop of `sync_frames`: consecutive frame_bits-wide
windows from the lock offset while a full window remains. -/
def extractGo (t : Track) (bits : List Nat) (total : Nat) : Nat → Nat → Nat → List DecodedFrame
  | 0, _, _ => []
  | fuel + 1, pos, idx =>
    if pos + frameBits t ≤ total then
      let slice := (bits.drop pos).take (frameBits t)
      ⟨idx, pos, slice, activeChannels t slice,
        blankOk ((blankBits t).map (· - 1)) slice⟩ ::
        extractGo t bits total fuel (pos + frameBits t) (idx + 1)
    else []

/-- sync_frames: lock search over `[0, search_end)` then frame
extraction from the best offset. -/
def sync_frames (bits : List Nat) (t : Track) (max_search_bits : Nat) : SyncResult :=
  let total := bits.length
  let fb := frameBits t
  let blankIdx := (blankBits t).map (· - 1)
  let searchEnd : Int := min (max_search_bits : Int) ((total : Int) - (fb : Int) * LOCK_THRESHOLD)
  let best := searchLoop bits fb blankIdx total searchEnd max_search_bits 0 0 0
  { locked := decide (best.2 ≥ LOCK_THRESHOLD)
    lock_offset := best.1
    score := best.2
    frames := extractGo t bits total (total + 1) best.1 0
    orphan_bits := best.1 }

/-! ## Frame scheduler (SGM/frame_builder.py and the inlined copy in
SGM/export_bridge.py). Both convert an event's float time to its integer
sample anchor with the same expression `int(time * SAMPLE_RATE)`; events
here carry that integer anchor directly. -/

/-- One show event: absolute sample anchor, channel name, on/off. -/
structure PyEvent where
  sample : Nat
  channel : String
  active : Bool
deriving DecidableEq

/-- Stable insertion used by `sortEvents`: an event goes before every
later-listed event with a key not below its own. -/
def insertEv (e : PyEvent) : List PyEvent → List PyEvent
  | [] => [e]
  | x :: xs => if x.sample < e.sample then x :: insertEv e xs else e :: x :: xs

/-- Stable sort by sample anchor, modelling Python `sorted(events, key=...)`. -/
def sortEvents : List PyEvent → List PyEvent
  | [] => []
  | e :: es => insertEv e (sortEvents es)

/-- FrameBuilder.set_channel: resolve the name, refuse blank slots, then
write bit_number-1; identical logic in both builder copies (their error
message texts differ and are abbreviated here). -/
def set_channel (t : Track) (frame : List Nat) (channel : String) (active : Bool) :
    Except String (List Nat) :=
  match (channels t).lookup channel with
  | none => Except.error ("Unknown " ++ channel)
  | some bit_number =>
    if bit_number ∈ blankBits t then
      Except.error ("Bit " ++ toString bit_number ++ " is BLANK")
    else
      Except.ok (frame.set (bit_number - 1) (if active then 1 else 0))

/-- Python bytearray slice assignment `out[s : s+len(data)] = data` at
sample granularity, with Python's clamping of slice bounds. -/
def writeSlice (out : List Int) (s : Nat) (data : List Int) : List Int :=
  out.take (min s out.length) ++ data ++ out.drop (min (s + data.length) out.length)

/-- _fill_frames / _fill: repeatedly encode the current frame state with
the threaded encoder and copy as many samples as fit into
`[pos, endS)`. Returns the buffer and the encoder level. -/
def fillFramesGo (t : Track) (frame : List Nat) : Nat → List Int → Int → Nat → Nat →
    List Int × Int
  | 0, out, lvl, _, _ => (out, lvl)
  | fuel + 1, out, lvl, pos, endS =>
    if pos < endS then
      let p := encode_bits lvl frame
      let cw := min (frameSamples t) (endS - pos)
      fillFramesGo t frame fuel (writeSlice out pos (p.1.take cw)) p.2 (pos + cw) endS
    else (out, lvl)

def fillFrames (t : Track) (frame : List Nat) (out : List Int) (lvl : Int)
    (pos endS : Nat) : List Int × Int :=
  fillFramesGo t frame endS out lvl pos endS

/-- State threaded through a build: output samples, encoder level, write
cursor, current frame bits, and the frame states handed to the fill
routine (the frames encoded into the stream). -/
structure BuildOut where
  out : List Int
  lvl : Int
  cursor : Nat
  frame : List Nat
  hist : List (List Nat)
deriving DecidableEq

/-- Event loop of FrameBuilder.build (frame_builder.py): fill up to the
raw event sample, then apply the event; no boundary snapping. -/
def fbLoop (t : Track) : List PyEvent → BuildOut → Except String BuildOut
  | [], st => Except.ok st
  | e :: rest, st =>
    let p := fillFrames t st.frame st.out st.lvl st.cursor e.sample
    match set_channel t st.frame e.channel e.active with
    | Except.error m => Except.error m
    | Except.ok frame' =>
      fbLoop t rest ⟨p.1, p.2, e.sample, frame', st.hist ++ [st.frame]⟩

/-- Total output length: int(duration*SAMPLE_RATE) rounded up to a whole
number of frames; `durSamples` is the integer `int(duration * SAMPLE_RATE)`. -/
def totalSamples (t : Track) (durSamples : Nat) : Nat :=
  if durSamples % frameSamples t = 0 then durSamples
  else durSamples + (frameSamples t - durSamples % frameSamples t)

/-- FrameBuilder.build (frame_builder.py): clear state, sort events,
run the event loop, fill the tail, and keep the full build state. -/
def fbBuildFull (t : Track) (events : List PyEvent) (durSamples : Nat) :
    Except String BuildOut :=
  let total := totalSamples t durSamples
  let st0 : BuildOut :=
    ⟨List.replicate total 0, BMC_LOW, 0, List.replicate (frameBits t) 0, []⟩
  match fbLoop t (sortEvents events) st0 with
  | Except.error m => Except.error m
  | Except.ok st =>
    let p := fillFrames t st.frame st.out st.lvl st.cursor total
    Except.ok ⟨p.1, p.2, total, st.frame, st.hist ++ [st.frame]⟩

/-- FrameBuilder.build output samples. -/
def fbBuild (t : Track) (events : List PyEvent) (durSamples : Nat) :
    Except String (List Int) :=
  (fbBuildFull t events durSamples).map (·.out)

/-- FrameBuilder.build output bytes (raw 16-bit LE PCM). -/
def fbBuildBytes (t : Track) (events : List PyEvent) (durSamples : Nat) :
    Except String (List Nat) :=
  (fbBuild t events durSamples).map to_raw_bytes

/-- Event loop of _FrameBuilder.build (export_bridge.py): floor-snap the
event sample to a frame boundary; an event at or before the cursor only
mutates the frame state (coalesced), otherwise fill then mutate. -/
def ebLoop (t : Track) : List PyEvent → BuildOut → Except String BuildOut
  | [], st => Except.ok st
  | e :: rest, st =>
    let evS := e.sample / frameSamples t * frameSamples t
    if evS ≤ st.cursor then
      match set_channel t st.frame e.channel e.active with
      | Except.error m => Except.error m
      | Except.ok frame' =>
        ebLoop t rest ⟨st.out, st.lvl, st.cursor, frame', st.hist⟩
    else
      let p := fillFrames t st.frame st.out st.lvl st.cursor evS
      match set_channel t st.frame e.channel e.active with
      | Except.error m => Except.error m
      | Except.ok frame' =>
        ebLoop t rest ⟨p.1, p.2, evS, frame', st.hist ++ [st.frame]⟩

/-- _FrameBuilder.build (export_bridge.py): identical envelope around the
snapping event loop. -/
def ebBuildFull (t : Track) (events : List PyEvent) (durSamples : Nat) :
    Except String BuildOut :=
  let total := totalSamples t durSamples
  let st0 : BuildOut :=
    ⟨List.replicate total 0, BMC_LOW, 0, List.replicate (frameBits t) 0, []⟩
  match ebLoop t (sortEvents events) st0 with
  | Except.error m => Except.error m
  | Except.ok st =>
    let p := fillFrames t st.frame st.out st.lvl st.cursor total
    Except.ok ⟨p.1, p.2, total, st.frame, st.hist ++ [st.frame]⟩

/-- _FrameBuilder.build output samples. -/
def ebBuild (t : Track) (events : List PyEvent) (durSamples : Nat) :
    Except String (List Int) :=
  (ebBuildFull t events durSamples).map (·.out)

/-- _FrameBuilder.build output bytes (raw 16-bit LE PCM). -/
def ebBuildBytes (t : Track) (events : List PyEvent) (durSamples : Nat) :
    Except String (List Nat) :=
  (ebBuild t events durSamples).map to_raw_bytes

/-- Frame states the frame_builder.py build encodes into its stream
(empty when the build raises). -/
def buildHist (t : Track) (events : List PyEvent) (durSamples : Nat) :
    List (List Nat) :=
  match fbBuildFull t events durSamples with
  | Except.ok st => st.hist
  | Except.error _ => []

/-! ## Hardware conformance simulator (SVM/hardware_sim.py): the pure
per-track threshold logic of run_sim, with float rates modelled as ℚ and
the formatted reason strings abbreviated to their fixed text. -/

def MAX_ERROR_RATE : ℚ := 0.02

def MIN_FRAME_LOCK_SCORE : Nat := 3

def MIN_BLANK_BIT_RATE : ℚ := 0.98

def trackName : Track → String
  | .TD => "TD"
  | .BD => "BD"

/-- Per-track body of run_sim: decode the channel, compute
`error_rate = n_errors / max(n_bits + n_errors, 1)`, sync frames,
compute `blank_ok_rate = blank_ok_count / max(n_frames, 1)`, and apply
the three acceptance thresholds in source order, collecting one reason
per violation. Returns (track passes, reasons). -/
def run_sim_track (t : Track) (sr : Nat) (samples : List Int) (tol : ℚ) :
    Bool × List String :=
  let dec := mkBMCDecoder sr BAUD_RATE tol 200
  let p := dec.decode samples
  let n_bits := p.1.length
  let n_errors := p.2.length
  let error_rate : ℚ := (n_errors : ℚ) / ((max (n_bits + n_errors) 1 : Nat) : ℚ)
  let r1 : List String :=
    if error_rate > MAX_ERROR_RATE then
      [trackName t ++ ": error rate exceeds limit"]
    else []
  let sync := sync_frames (p.1.map (·.bit)) t 500
  let blank_ok_count := (sync.frames.filter (·.blank_ok)).length
  let blank_ok_rate : ℚ := (blank_ok_count : ℚ) / ((max sync.frames.length 1 : Nat) : ℚ)
  let r2 : List String :=
    if !sync.locked then
      [trackName t ++ ": failed to lock on frame boundaries"]
    else []
  let r3 : List String :=
    if blank_ok_rate < MIN_BLANK_BIT_RATE then
      [trackName t ++ ": blank-bit integrity below limit"]
    else []
  (r1.isEmpty && r2.isEmpty && r3.isEmpty, r1 ++ r2 ++ r3)

/-- run_sim over both tracks (the BOTH default): TD then BD, verdict is
the conjunction, reasons accumulate in track order. -/
def run_sim_core (sr : Nat) (td bd : List Int) (tol : ℚ) : Bool × List String :=
  let a := run_sim_track .TD sr td tol
  let b := run_sim_track .BD sr bd tol
  (a.1 && b.1, a.2 ++ b.2)

/-! ## rshw signal-data serializer (SGM/rshw_builder.py,
`_build_signal_data` with its default parameters fps=60, baud=4800,
td=94, bd=96 bits). -/

def RSHW_FPS : Nat := 60

/-- TD contribution of one 60 Hz output frame: look up the TD bit-frame
active at t = n/fps and emit bit_idx+1 for every set bit. -/
def tdPartCode (td_frames : List (List Nat)) (n : Nat) : List Nat :=
  let t : ℚ := (n : ℚ) / (RSHW_FPS : ℚ)
  let td_frame_s : ℚ := (TD_FRAME_BITS : ℚ) / (BAUD_RATE : ℚ)
  let td_idx : Int := ⌊t / td_frame_s⌋
  if td_idx < (td_frames.length : Int) then
    (td_frames.getD td_idx.toNat []).enum.filterMap
      (fun p => if p.2 ≠ 0 then some (p.1 + 1) else none)
  else []

/-- BD contribution of one 60 Hz output frame: bit_idx + 151 for every
set bit (150 offset, 1-indexed). -/
def bdPartCode (bd_frames : List (List Nat)) (n : Nat) : List Nat :=
  let t : ℚ := (n : ℚ) / (RSHW_FPS : ℚ)
  let bd_frame_s : ℚ := (BD_FRAME_BITS : ℚ) / (BAUD_RATE : ℚ)
  let bd_idx : Int := ⌊t / bd_frame_s⌋
  if bd_idx < (bd_frames.length : Int) then
    (bd_frames.getD bd_idx.toNat []).enum.filterMap
      (fun p => if p.2 ≠ 0 then some (p.1 + 151) else none)
  else []

/-- _build_signal_data: for each rshw frame below
int(audio_length_s * fps), append the delimiter 0, the TD codes and the
BD codes. -/
def build_signal_data (td_frames bd_frames : List (List Nat)) (audio_length_s : ℚ) :
    List Nat :=
  let total := (⌊audio_length_s * (RSHW_FPS : ℚ)⌋).toNat
  (List.range total).foldl
    (fun acc n => acc ++ 0 :: (tdPartCode td_frames n ++ bdPartCode bd_frames n)) []

/-- Claim-side description of the signalData array: int(duration*60)
groups, one per 60 Hz frame at t = n/60, each the delimiter 0 followed
by (bit_index+1) for the set bits of the TD frame at index
floor(t/(94/4800)) and (bit_index+1+150) for the set bits of the BD
frame at index floor(t/(96/4800)). -/
def signal_data_spec (td_frames bd_frames : List (List Nat)) (dur : ℚ) : List Nat :=
  ((List.range (⌊dur * 60⌋.toNat)).map (fun n : Nat =>
    let t : ℚ := (n : ℚ) / 60
    0 :: ((td_frames.getD (⌊t / ((94 : ℚ) / 4800)⌋).toNat []).enum.filterMap
        (fun p => if p.2 ≠ 0 then some (p.1 + 1) else none) ++
      (bd_frames.getD (⌊t / ((96 : ℚ) / 4800)⌋).toNat []).enum.filterMap
        (fun p => if p.2 ≠ 0 then some (p.1 + 1 + 150) else none)))).flatten

/-! ## Run analysis: maximal equal-value runs of a sample list (used to
state phase-continuity; same fuel embedding as the decoder scan). -/

/-- Leading samples equal to `x`. -/
def countEq (x : Int) : List Int → Nat
  | [] => 0
  | y :: ys => if y = x then countEq x ys + 1 else 0

def runsEqFuel : Nat → List Int → List Nat
  | 0, _ => []
  | _ + 1, [] => []
  | fuel + 1, x :: rest => (countEq x rest + 1) :: runsEqFuel fuel (rest.drop (countEq x rest))

/-- Lengths of the maximal runs of consecutive equal samples. -/
def runsEq (l : List Int) : List Nat := runsEqFuel l.length l

/-! ## Basic facts about the encoder output shape -/

theorem flipLevel_cases (lvl : Int) : flipLevel lvl = BMC_HIGH ∨ flipLevel lvl = BMC_LOW := by
  unfold flipLevel
  split <;> simp

theorem flipLevel_ne (lvl : Int) (h : lvl = BMC_HIGH ∨ lvl = BMC_LOW) :
    flipLevel lvl ≠ lvl := by
  rcases h with h | h <;> subst h <;> decide

theorem encode_bits_cons (lvl : Int) (b : Nat) (bs : List Nat) :
    encode_bits lvl (b :: bs) =
      ((encode_bit lvl b).1 ++ (encode_bits (encode_bit lvl b).2 bs).1,
        (encode_bits (encode_bit lvl b).2 bs).2) := rfl

theorem encode_bits_head (lvl : Int) (b : Nat) (bs : List Nat) :
    (encode_bits lvl (b :: bs)).1.head? = some (flipLevel lvl) := by
  rw [encode_bits_cons]
  unfold encode_bit
  by_cases hb : b ≠ 0 <;> simp [hb, BMC_HALF_A, SAMPLES_PER_BIT, SAMPLE_RATE, BAUD_RATE,
    List.replicate, List.head?]

theorem encode_bits_append (lvl : Int) (a b : List Nat) :
    encode_bits lvl (a ++ b) =
      ((encode_bits lvl a).1 ++ (encode_bits (encode_bits lvl a).2 b).1,
        (encode_bits (encode_bits lvl a).2 b).2) := by
  induction a generalizing lvl with
  | nil => simp [encode_bits]
  | cons x xs ih => simp [encode_bits, ih, List.append_assoc]

/-! ## Equal-run bound of encoder output -/

theorem countEq_replicate_append (v : Int) (k : Nat) (rest : List Int) :
    countEq v (List.replicate k v ++ rest) = k + countEq v rest := by
  induction k with
  | zero => simp
  | succ n ih => simp [List.replicate_succ, countEq, ih]; omega

theorem countEq_head_ne (x : Int) (rest : List Int) (h : rest.head? ≠ some x) :
    countEq x rest = 0 := by
  cases rest with
  | nil => rfl
  | cons y ys =>
    simp only [List.head?] at h
    have : y ≠ x := fun hyx => h (by rw [hyx])
    simp [countEq, this]

theorem runsEqFuel_block (v : Int) (k fuel : Nat) (rest : List Int)
    (hk : k ≠ 0) (hne : rest.head? ≠ some v) :
    runsEqFuel (fuel + 1) (List.replicate k v ++ rest) = k :: runsEqFuel fuel rest := by
  obtain ⟨k', rfl⟩ : ∃ k', k = k' + 1 := ⟨k - 1, by omega⟩
  rw [List.replicate_succ, List.cons_append]
  have hcount : countEq v (List.replicate k' v ++ rest) = k' := by
    rw [countEq_replicate_append, countEq_head_ne v rest hne]
    omega
  simp only [runsEqFuel, hcount]
  rw [List.drop_append_of_le_length (by simp), List.drop_replicate]
  simp

theorem head?_replicate_append (v : Int) (k : Nat) (rest : List Int) (hk : k ≠ 0) :
    (List.replicate k v ++ rest).head? = some v := by
  obtain ⟨k', rfl⟩ : ∃ k', k = k' + 1 := ⟨k - 1, by omega⟩
  simp [List.replicate_succ]

theorem encode_bit_zero (lvl : Int) :
    encode_bit lvl 0 = (List.replicate 9 (flipLevel lvl), flipLevel lvl) := rfl

theorem SPB_eq : SAMPLES_PER_BIT = 9 := rfl

theorem HALF_A_eq : BMC_HALF_A = 4 := rfl

theorem HALF_B_eq : BMC_HALF_B = 5 := rfl

theorem encode_bit_pos (lvl : Int) (b : Nat) (hb : b ≠ 0) :
    encode_bit lvl b =
      (List.replicate 4 (flipLevel lvl) ++ List.replicate 5 (flipLevel (flipLevel lvl)),
        flipLevel (flipLevel lvl)) := by
  unfold encode_bit
  rw [if_pos hb, HALF_A_eq, HALF_B_eq]

/-- Every maximal equal run of an encoded bit stream is a half period
(4 or 5 samples) or a full period (9 samples). -/
theorem runsEqFuel_encode_mem (bits : List Nat) (lvl : Int) (fuel : Nat)
    (hf : (encode_bits lvl bits).1.length ≤ fuel) :
    ∀ r ∈ runsEqFuel fuel (encode_bits lvl bits).1, r = 4 ∨ r = 5 ∨ r = 9 := by
  induction bits generalizing lvl fuel with
  | nil =>
    cases fuel <;> simp [encode_bits, runsEqFuel]
  | cons b bs ih =>
    have hl1 := flipLevel_cases lvl
    have htail : ∀ l' : Int, (encode_bits l' bs).1.head? = some (flipLevel l') ∨
        (encode_bits l' bs).1 = [] := by
      intro l'
      cases bs with
      | nil => right; rfl
      | cons c cs => left; exact encode_bits_head l' c cs
    by_cases hb : b = 0
    · subst hb
      rw [encode_bits_cons, encode_bit_zero] at hf ⊢
      simp only at hf ⊢
      have hlen := hf
      simp only [List.length_append, List.length_replicate] at hlen
      obtain ⟨f, rfl⟩ : ∃ f, fuel = f + 1 := ⟨fuel - 1, by omega⟩
      have hne : (encode_bits (flipLevel lvl) bs).1.head? ≠ some (flipLevel lvl) := by
        rcases htail (flipLevel lvl) with h | h
        · rw [h]
          intro hc
          exact flipLevel_ne (flipLevel lvl) (flipLevel_cases lvl) (Option.some.inj hc)
        · rw [h]; simp
      rw [runsEqFuel_block (flipLevel lvl) 9 f _ (by omega) hne]
      intro r hr
      simp only [List.mem_cons] at hr
      rcases hr with rfl | hr
      · right; right; rfl
      · exact ih (flipLevel lvl) f (by omega) r hr
    · rw [encode_bits_cons, encode_bit_pos lvl b hb] at hf ⊢
      simp only at hf ⊢
      set l1 := flipLevel lvl with hl1def
      set l2 := flipLevel l1 with hl2def
      have hl2 := flipLevel_cases l1
      have hlen := hf
      simp only [List.length_append, List.length_replicate] at hlen
      obtain ⟨f, rfl⟩ : ∃ f, fuel = f + 2 := ⟨fuel - 2, by omega⟩
      rw [List.append_assoc]
      have hne1 : (List.replicate 5 l2 ++ (encode_bits l2 bs).1).head? ≠ some l1 := by
        rw [head?_replicate_append l2 5 _ (by omega)]
        intro hc
        exact flipLevel_ne l1 hl1 (Option.some.inj hc)
      have hne2 : (encode_bits l2 bs).1.head? ≠ some l2 := by
        rcases htail l2 with h | h
        · rw [h]
          intro hc
          exact flipLevel_ne l2 hl2 (Option.some.inj hc)
        · rw [h]; simp
      rw [show f + 2 = (f + 1) + 1 from rfl,
        runsEqFuel_block l1 4 (f + 1) _ (by omega) hne1,
        runsEqFuel_block l2 5 f _ (by omega) hne2]
      intro r hr
      simp only [List.mem_cons] at hr
      rcases hr with rfl | rfl | hr
      · left; rfl
      · right; left; rfl
      · exact ih l2 f (by omega) r hr

/-- Run bound for a single encoded stream. -/
theorem runsEq_encode_le (bits : List Nat) (lvl : Int) :
    ∀ r ∈ runsEq (encode_bits lvl bits).1, r ≤ 9 := by
  intro r hr
  rcases runsEqFuel_encode_mem bits lvl (encode_bits lvl bits).1.length le_rfl r hr with
    h | h | h <;> omega

/-- C5: for every pair of bit sequences a and b encoded back-to-back by
one encoder instance (the output level threads from the first call into
the second, no reset), every maximal run of consecutive equal-level
samples in the concatenated output has length at most N = 9; in
particular no run spanning the call boundary exceeds 9. -/
theorem encoder_concat_run_bound (a b : List Nat) (lvl : Int) :
    ∀ r ∈ runsEq ((encode_bits lvl a).1 ++ (encode_bits (encode_bits lvl a).2 b).1),
      r ≤ 9 := by
  intro r hr
  have h := encode_bits_append lvl a b
  have hs : (encode_bits lvl a).1 ++ (encode_bits (encode_bits lvl a).2 b).1 =
      (encode_bits lvl (a ++ b)).1 := by rw [h]
  rw [hs] at hr
  exact runsEq_encode_le (a ++ b) lvl r hr

/-- Witness for C5: both calls encode [0] from level BMC_LOW; the run 9
in the concatenated output is within the bound. -/
theorem encoder_concat_run_bound_witness :
    9 ∈ runsEq ((encode_bits BMC_LOW [0]).1 ++
      (encode_bits (encode_bits BMC_LOW [0]).2 [0]).1) ∧ 9 ≤ 9 :=
  ⟨by decide, encoder_concat_run_bound [0] [0] BMC_LOW 9 (by decide)⟩

/-! ## Decoder run extraction over encoder output -/

/-- Expected (start, length) run list of an encoded bit stream whose
first sample sits at index i: [4,5] per 1 bit, [9] per 0 bit. -/
def runSpec : Nat → List Nat → List (Nat × Nat)
  | _, [] => []
  | i, b :: bs =>
    if b ≠ 0 then (i, 4) :: (i + 4, 5) :: runSpec (i + 9) bs
    else (i, 9) :: runSpec (i + 9) bs

theorem countRun_replicate_append (th : Nat) (p : Bool) (v : Int) (k : Nat)
    (rest : List Int)
    (hm : ((decide (v > 0) == p) && decide (th ≤ v.natAbs)) = true) :
    countRun th p (List.replicate k v ++ rest) = k + countRun th p rest := by
  induction k with
  | zero => simp
  | succ n ih =>
    rw [List.replicate_succ, List.cons_append]
    simp only [countRun, hm, if_pos]
    omega

/-- Head condition stopping the inner run-counting while loop. -/
def signStop (th : Nat) (p : Bool) (rest : List Int) : Prop :=
  ∀ y, rest.head? = some y → ((decide (y > 0) == p) && decide (th ≤ y.natAbs)) = false

theorem countRun_stop (th : Nat) (p : Bool) (rest : List Int)
    (h : signStop th p rest) : countRun th p rest = 0 := by
  cases rest with
  | nil => rfl
  | cons y ys => simp [countRun, h y rfl]

theorem run_lengthsAux_block (th fuel i : Nat) (v : Int) (k : Nat) (rest : List Int)
    (hk : k ≠ 0) (hv : ¬ v.natAbs < th)
    (hstop : signStop th (decide (v > 0)) rest) :
    run_lengthsAux th (fuel + 1) i (List.replicate k v ++ rest) =
      (i, k) :: run_lengthsAux th fuel (i + k) rest := by
  obtain ⟨k', rfl⟩ : ∃ k', k = k' + 1 := ⟨k - 1, by omega⟩
  rw [List.replicate_succ, List.cons_append]
  have hcount : countRun th (decide (v > 0)) (List.replicate k' v ++ rest) = k' := by
    rw [countRun_replicate_append th _ v k' rest
      (by simp [decide_eq_true (show th ≤ v.natAbs by omega)]),
      countRun_stop th _ rest hstop]
    omega
  simp only [run_lengthsAux, if_neg hv, hcount]
  rw [List.drop_append_of_le_length (by simp), List.drop_replicate]
  have hidx : i + k' + 1 = i + (k' + 1) := by omega
  simp [hidx]

/-- Opposite levels never extend each other's run: the flipped level
fails the same-sign test. -/
theorem sign_flip_stop (th : Nat) (w : Int) (hw : w = BMC_HIGH ∨ w = BMC_LOW) :
    ((decide (flipLevel w > 0) == decide (w > 0)) &&
      decide (th ≤ (flipLevel w).natAbs)) = false := by
  rcases hw with rfl | rfl <;> simp [flipLevel, BMC_HIGH, BMC_LOW]

theorem level_above_thresh (th : Nat) (w : Int) (hth : th ≤ 32767)
    (hw : w = BMC_HIGH ∨ w = BMC_LOW) : ¬ w.natAbs < th := by
  rcases hw with rfl | rfl
  · have h : BMC_HIGH.natAbs = 32767 := rfl
    omega
  · have h : BMC_LOW.natAbs = 32768 := rfl
    omega

/-- Run extraction of an encoded stream yields exactly the per-bit run
pattern (any starting index, any threshold at or below the levels). -/
theorem run_lengthsAux_encode (bits : List Nat) (lvl : Int) (i th fuel : Nat)
    (hth : th ≤ 32767)
    (hf : (encode_bits lvl bits).1.length ≤ fuel) :
    run_lengthsAux th fuel i (encode_bits lvl bits).1 = runSpec i bits := by
  induction bits generalizing lvl i fuel with
  | nil => cases fuel <;> rfl
  | cons b bs ih =>
    have hl1 := flipLevel_cases lvl
    have htail : ∀ l' : Int, (encode_bits l' bs).1.head? = some (flipLevel l') ∨
        (encode_bits l' bs).1 = [] := by
      intro l'
      cases bs with
      | nil => right; rfl
      | cons c cs => left; exact encode_bits_head l' c cs
    have hstopTail : ∀ l' : Int, (l' = BMC_HIGH ∨ l' = BMC_LOW) →
        signStop th (decide (l' > 0)) (encode_bits l' bs).1 := by
      intro l' hl' y hy
      rcases htail l' with h | h
      · rw [h] at hy
        obtain rfl := (Option.some.inj hy).symm
        exact sign_flip_stop th l' hl'
      · rw [h] at hy
        simp at hy
    by_cases hb : b = 0
    · subst hb
      rw [encode_bits_cons, encode_bit_zero] at hf ⊢
      simp only at hf ⊢
      have hlen := hf
      simp only [List.length_append, List.length_replicate] at hlen
      obtain ⟨f, rfl⟩ : ∃ f, fuel = f + 1 := ⟨fuel - 1, by omega⟩
      rw [run_lengthsAux_block th f i (flipLevel lvl) 9 _ (by omega)
        (level_above_thresh th _ hth hl1) (hstopTail (flipLevel lvl) hl1)]
      simp only [runSpec, ne_eq, not_true_eq_false, if_false, reduceIte]
      rw [ih (flipLevel lvl) (i + 9) f (by omega)]
    · rw [encode_bits_cons, encode_bit_pos lvl b hb] at hf ⊢
      simp only at hf ⊢
      have hlen := hf
      simp only [List.length_append, List.length_replicate] at hlen
      obtain ⟨f, rfl⟩ : ∃ f, fuel = f + 2 := ⟨fuel - 2, by omega⟩
      set l1 := flipLevel lvl with hl1def
      set l2 := flipLevel l1 with hl2def
      have hl2 := flipLevel_cases l1
      rw [List.append_assoc]
      have hstop1 : signStop th (decide (l1 > 0)) (List.replicate 5 l2 ++ (encode_bits l2 bs).1) := by
        intro y hy
        rw [head?_replicate_append l2 5 _ (by omega)] at hy
        obtain rfl := (Option.some.inj hy).symm
        exact sign_flip_stop th l1 hl1
      rw [show f + 2 = (f + 1) + 1 from rfl,
        run_lengthsAux_block th (f + 1) i l1 4 _ (by omega)
          (level_above_thresh th _ hth hl1) hstop1,
        run_lengthsAux_block th f (i + 4) l2 5 _ (by omega)
          (level_above_thresh th _ hth hl2) (hstopTail l2 hl2)]
      rw [ih l2 (i + 4 + 5) f (by omega)]
      have hrs : runSpec i (b :: bs) = (i, 4) :: (i + 4, 5) :: runSpec (i + 9) bs := by
        simp [runSpec, hb]
      rw [hrs]

/-- The default decoder with its tolerance windows evaluated:
full [6, 12], half [3, 6] (floor/ceil of 9.1875 and 4.59375 at ±30%). -/
def defaultDecoderLit : BMCDecoder :=
  ⟨44100, 4800, 3/10, 200, 147/16, 147/32, 6, 12, 3, 6⟩

theorem defaultDecoder_eq_lit : defaultDecoder = defaultDecoderLit := by
  unfold defaultDecoder mkBMCDecoder defaultDecoderLit
  norm_num [Int.floor_eq_iff, Int.ceil_eq_iff]

/-- Decoded bits the decoder recovers from a clean encoded stream. -/
def bitSpec : Nat → List Nat → List DecodedBit
  | _, [] => []
  | i, b :: bs =>
    if b ≠ 0 then ⟨1, i, 4, some 5, true⟩ :: bitSpec (i + 9) bs
    else ⟨0, i, 9, none, true⟩ :: bitSpec (i + 9) bs

/-- Consuming the clean run pattern yields one in-tolerance DecodedBit
per bit and no errors, for any decoder accepting 9 as full and 4, 5 as
(non-full) halves. -/
theorem consume_runsFuel_spec (d : BMCDecoder)
    (h9 : d.is_full 9 = true) (h4f : d.is_full 4 = false)
    (h4h : d.is_half 4 = true) (h5h : d.is_half 5 = true) :
    ∀ (bits : List Nat) (i fuel : Nat), (runSpec i bits).length ≤ fuel →
      d.consume_runsFuel fuel (runSpec i bits) = (bitSpec i bits, []) := by
  intro bits
  induction bits with
  | nil =>
    intro i fuel _
    cases fuel <;> rfl
  | cons b bs ih =>
    intro i fuel hf
    by_cases hb : b = 0
    · subst hb
      have hrs : runSpec i (0 :: bs) = (i, 9) :: runSpec (i + 9) bs := by
        simp [runSpec]
      rw [hrs] at hf ⊢
      obtain ⟨f, rfl⟩ : ∃ f, fuel = f + 1 := ⟨fuel - 1, by simp at hf; omega⟩
      simp only [BMCDecoder.consume_runsFuel, h9, if_true]
      rw [ih (i + 9) f (by simp at hf ⊢; omega)]
      simp [bitSpec]
    · have hrs : runSpec i (b :: bs) = (i, 4) :: (i + 4, 5) :: runSpec (i + 9) bs := by
        simp [runSpec, hb]
      rw [hrs] at hf ⊢
      obtain ⟨f, rfl⟩ : ∃ f, fuel = f + 1 := ⟨fuel - 1, by simp at hf; omega⟩
      simp only [BMCDecoder.consume_runsFuel, h9, h4f, h4h, h5h, Bool.false_eq_true,
        if_false, if_true]
      rw [ih (i + 9) f (by simp at hf ⊢; omega)]
      simp [bitSpec, hb]

theorem bitSpec_map_bit (bits : List Nat) (i : Nat) :
    (bitSpec i bits).map DecodedBit.bit = bits.map (fun b => if b ≠ 0 then 1 else 0) := by
  induction bits generalizing i with
  | nil => rfl
  | cons b bs ih =>
    by_cases hb : b = 0 <;> simp [bitSpec, hb, ih]

theorem map_ite_of_le_one (bits : List Nat) (hb : ∀ b ∈ bits, b ≤ 1) :
    bits.map (fun b => if b ≠ 0 then 1 else 0) = bits := by
  induction bits with
  | nil => rfl
  | cons b bs ih =>
    have hbb : b ≤ 1 := hb b (List.mem_cons_self b bs)
    have hrest : ∀ x ∈ bs, x ≤ 1 := fun x hx => hb x (List.mem_cons_of_mem b hx)
    interval_cases b <;> simpa using ih hrest

/-- C1: for every 0/1 bit sequence and any initial encoder level,
decoding the BMC-encoded samples at the matching rates with the default
tolerance 0.30 and zero_threshold 200 returns exactly the original bit
sequence (the bit fields in order) and an empty error list. -/
theorem bmc_roundtrip_identity (bits : List Nat) (lvl : Int)
    (hb : ∀ b ∈ bits, b ≤ 1) :
    (defaultDecoder.decode (encode_bits lvl bits).1).1.map DecodedBit.bit = bits ∧
    (defaultDecoder.decode (encode_bits lvl bits).1).2 = [] := by
  have hth : defaultDecoder.zero_threshold ≤ 32767 := by
    rw [defaultDecoder_eq_lit]; decide
  have hrl : defaultDecoder.run_lengths (encode_bits lvl bits).1 = runSpec 0 bits :=
    run_lengthsAux_encode bits lvl 0 defaultDecoder.zero_threshold _ hth le_rfl
  have hcons : defaultDecoder.consume_runs (runSpec 0 bits) = (bitSpec 0 bits, []) := by
    unfold BMCDecoder.consume_runs
    exact consume_runsFuel_spec defaultDecoder
      (by rw [defaultDecoder_eq_lit]; decide) (by rw [defaultDecoder_eq_lit]; decide)
      (by rw [defaultDecoder_eq_lit]; decide) (by rw [defaultDecoder_eq_lit]; decide)
      bits 0 _ le_rfl
  unfold BMCDecoder.decode
  rw [hrl, hcons]
  exact ⟨by rw [bitSpec_map_bit, map_ite_of_le_one bits hb], rfl⟩

/-- Witness for C1: the scenario byte [1,0,1,1,0,0,1,0] from level
BMC_LOW round-trips with no errors. -/
theorem bmc_roundtrip_identity_witness :
    (defaultDecoder.decode (encode_bits BMC_LOW [1, 0, 1, 1, 0, 0, 1, 0]).1).1.map
      DecodedBit.bit = [1, 0, 1, 1, 0, 0, 1, 0] ∧
    (defaultDecoder.decode (encode_bits BMC_LOW [1, 0, 1, 1, 0, 0, 1, 0]).1).2 = [] :=
  bmc_roundtrip_identity [1, 0, 1, 1, 0, 0, 1, 0] BMC_LOW (by decide)

/-! ## Tolerance-zero windows (C6) -/

/-- The tolerance-0 decoder with its windows evaluated: the floor/ceil
brackets of the fractional nominals give full [9, 10] and half [4, 5]. -/
def tolZeroDecoderLit : BMCDecoder :=
  ⟨44100, 4800, 0, 200, 147/16, 147/32, 9, 10, 4, 5⟩

theorem mk_tolZero_eq : mkBMCDecoder 44100 4800 0 200 = tolZeroDecoderLit := by
  unfold mkBMCDecoder tolZeroDecoderLit
  norm_num [Int.floor_eq_iff, Int.ceil_eq_iff]

/-- C6 counterexample: with tolerance = 0 the decoder accepts a run of
10 samples — which is not the nominal full period 9.1875 — as bit 0
with no DecodeError, so not only exact nominal run lengths are
accepted. -/
theorem tolerance_zero_accepts_run_ten :
    (mkBMCDecoder 44100 4800 0 200).decode (List.replicate 10 32767) =
      ([⟨0, 0, 10, none, true⟩], []) ∧
    (10 : ℚ) ≠ (44100 : ℚ) / 4800 := by
  constructor
  · rw [mk_tolZero_eq]
    decide
  · norm_num

/-- C6 amended: with tolerance = 0 the acceptance windows are the
floor/ceil integer brackets of the fractional nominal periods — full
runs of 9 to 10 samples and half runs of 4 to 5 samples — and a run
outside both windows at the head of the run stream is recorded as one
DecodeError while decoding continues (such a run can instead be
absorbed as the second run of a marginal pair whose sum lies in the
full window). -/
theorem tolerance_zero_windows :
    (∀ r : Nat, (mkBMCDecoder 44100 4800 0 200).is_full r = true ↔ 9 ≤ r ∧ r ≤ 10) ∧
    (∀ r : Nat, (mkBMCDecoder 44100 4800 0 200).is_half r = true ↔ 4 ≤ r ∧ r ≤ 5) ∧
    (∀ (pos r : Nat) (rest : List (Nat × Nat)), ¬(9 ≤ r ∧ r ≤ 10) → ¬(4 ≤ r ∧ r ≤ 5) →
      ∃ reason,
        ((mkBMCDecoder 44100 4800 0 200).consume_runs ((pos, r) :: rest)).1 =
          ((mkBMCDecoder 44100 4800 0 200).consume_runs rest).1 ∧
        ((mkBMCDecoder 44100 4800 0 200).consume_runs ((pos, r) :: rest)).2 =
          ⟨pos, r, reason⟩ :: ((mkBMCDecoder 44100 4800 0 200).consume_runs rest).2) := by
  rw [mk_tolZero_eq]
  refine ⟨?_, ?_, ?_⟩
  · intro r
    unfold BMCDecoder.is_full tolZeroDecoderLit
    simp only [Bool.and_eq_true, decide_eq_true_eq]
    omega
  · intro r
    unfold BMCDecoder.is_half tolZeroDecoderLit
    simp only [Bool.and_eq_true, decide_eq_true_eq]
    omega
  · intro pos r rest hfull hhalf
    have h1 : tolZeroDecoderLit.is_full r = false := by
      unfold BMCDecoder.is_full tolZeroDecoderLit
      simp only [Bool.and_eq_false_iff, decide_eq_false_iff_not]
      omega
    have h2 : tolZeroDecoderLit.is_half r = false := by
      unfold BMCDecoder.is_half tolZeroDecoderLit
      simp only [Bool.and_eq_false_iff, decide_eq_false_iff_not]
      omega
    simp only [BMCDecoder.consume_runs, List.length_cons, BMCDecoder.consume_runsFuel,
      h1, h2, Bool.false_eq_true, if_false]
    exact ⟨_, trivial, rfl⟩

/-! ## Decoder totality and run accounting (C7) -/

/-- Runs consumed to produce one decoded bit: two when the bit carries a
second run, one otherwise. -/
def runsConsumed (b : DecodedBit) : Nat := if b.run_b.isSome then 2 else 1

theorem consume_runsFuel_acc (d : BMCDecoder) :
    ∀ (fuel : Nat) (runs : List (Nat × Nat)), runs.length ≤ fuel →
      runs.length = ((d.consume_runsFuel fuel runs).1.map runsConsumed).sum +
        (d.consume_runsFuel fuel runs).2.length := by
  intro fuel
  induction fuel with
  | zero =>
    intro runs h
    have : runs = [] := List.length_eq_zero.mp (by omega)
    subst this
    simp [BMCDecoder.consume_runsFuel]
  | succ f ih =>
    intro runs h
    match runs with
    | [] => simp [BMCDecoder.consume_runsFuel]
    | (pos, r) :: rest =>
      simp only [List.length_cons] at h
      by_cases h1 : d.is_full r = true
      · simp only [BMCDecoder.consume_runsFuel, h1, if_true, List.map_cons, List.sum_cons,
          List.length_cons]
        have := ih rest (by omega)
        simp only [runsConsumed, Option.isSome_none, if_false]
        simp at this ⊢
        omega
      · rw [Bool.not_eq_true] at h1
        by_cases h2 : d.is_half r = true
        · match rest with
          | [] =>
            simp [BMCDecoder.consume_runsFuel, h1, h2, runsConsumed]
          | (pos2, r2) :: rest2 =>
            simp only [List.length_cons] at h
            by_cases h3 : d.is_half r2 = true
            · simp only [BMCDecoder.consume_runsFuel, h1, h2, h3, Bool.false_eq_true,
                if_false, if_true, List.map_cons, List.sum_cons, List.length_cons]
              have := ih rest2 (by omega)
              simp only [runsConsumed, Option.isSome_some, if_true]
              omega
            · rw [Bool.not_eq_true] at h3
              by_cases h4 : d.is_full (r + r2) = true
              · simp only [BMCDecoder.consume_runsFuel, h1, h2, h3, h4, Bool.false_eq_true,
                  if_false, if_true, List.map_cons, List.sum_cons, List.length_cons]
                have := ih rest2 (by omega)
                simp only [runsConsumed, Option.isSome_some, if_true]
                omega
              · rw [Bool.not_eq_true] at h4
                simp only [BMCDecoder.consume_runsFuel, h1, h2, h3, h4, Bool.false_eq_true,
                  if_false, if_true, List.length_cons]
                have := ih ((pos2, r2) :: rest2) (by simp; omega)
                simp only [List.length_cons] at this
                omega
        · rw [Bool.not_eq_true] at h2
          simp only [BMCDecoder.consume_runsFuel, h1, h2, Bool.false_eq_true, if_false,
            List.length_cons]
          have := ih rest (by omega)
          omega

/-- C7: decoding always returns normally with the full bit and error
lists: the number of extracted runs equals the runs consumed by the
decoded bits (2 when run_b is present, else 1) plus one per error; and
a trailing run in the half window (and not in the full window) with no
successor is accepted as bit 1 flagged out-of-tolerance rather than
reported as an error. -/
theorem decoder_total_accounting :
    (∀ (d : BMCDecoder) (samples : List Int),
      (d.run_lengths samples).length =
        ((d.decode samples).1.map runsConsumed).sum + (d.decode samples).2.length) ∧
    (∀ (d : BMCDecoder) (pos r : Nat), d.is_half r = true → d.is_full r = false →
      d.consume_runs [(pos, r)] = ([⟨1, pos, r, none, false⟩], [])) := by
  constructor
  · intro d samples
    unfold BMCDecoder.decode BMCDecoder.consume_runs
    exact consume_runsFuel_acc d (d.run_lengths samples).length
      (d.run_lengths samples) le_rfl
  · intro d pos r hh hf
    simp [BMCDecoder.consume_runs, BMCDecoder.consume_runsFuel, hf, hh]

/-- Witness for C7 at the default decoder: a lone run of 4 samples
(half window only) decodes as one marginal bit 1 and no errors, and the
accounting holds on the encoded byte stream. -/
theorem decoder_total_accounting_witness :
    (defaultDecoder.run_lengths (encode_bits BMC_LOW [1, 0]).1).length =
      ((defaultDecoder.decode (encode_bits BMC_LOW [1, 0]).1).1.map runsConsumed).sum +
        (defaultDecoder.decode (encode_bits BMC_LOW [1, 0]).1).2.length ∧
    defaultDecoder.consume_runs [(0, 4)] = ([⟨1, 0, 4, none, false⟩], []) :=
  ⟨decoder_total_accounting.1 defaultDecoder (encode_bits BMC_LOW [1, 0]).1,
    decoder_total_accounting.2 defaultDecoder 0 4
      (by rw [defaultDecoder_eq_lit]; decide) (by rw [defaultDecoder_eq_lit]; decide)⟩

/-- Witness for C6 amended: 10 is accepted as full, 5 as half, and the
run 7 (outside both windows) heading a stream yields one DecodeError. -/
theorem tolerance_zero_windows_witness :
    (mkBMCDecoder 44100 4800 0 200).is_full 10 = true ∧
    (mkBMCDecoder 44100 4800 0 200).is_half 5 = true ∧
    ∃ reason,
      ((mkBMCDecoder 44100 4800 0 200).consume_runs [(0, 7)]).1 =
        ((mkBMCDecoder 44100 4800 0 200).consume_runs []).1 ∧
      ((mkBMCDecoder 44100 4800 0 200).consume_runs [(0, 7)]).2 =
        ⟨0, 7, reason⟩ :: ((mkBMCDecoder 44100 4800 0 200).consume_runs []).2 :=
  ⟨(tolerance_zero_windows.1 10).mpr (by decide),
    (tolerance_zero_windows.2.1 5).mpr (by decide),
    tolerance_zero_windows.2.2 0 7 [] (by decide) (by decide)⟩

/-! ## Frame synchronizer lock behavior (C3) -/

set_option maxRecDepth 4000 in
/-- C3 counterexample: for K = 3 consecutive valid frames (here all-zero
TD frames, 282 bits) the lock search range min(500, 282 − 3·94) is
empty, so sync_frames returns score 0 — not min(3, K) = 3 — and no
lock. -/
theorem sync_frames_three_frames_no_lock :
    (sync_frames (List.replicate (3 * 94) 0) Track.TD 500).score ≠ min 3 3 ∧
    (sync_frames (List.replicate (3 * 94) 0) Track.TD 500).locked = false := by
  constructor
  · decide
  · decide

theorem flatten_length_of_uniform (F : List (List Nat)) (n : Nat)
    (hn : ∀ f ∈ F, f.length = n) : F.flatten.length = F.length * n := by
  induction F with
  | nil => simp
  | cons f fs ih =>
    simp only [List.flatten_cons, List.length_append, List.length_cons,
      hn f (List.mem_cons_self f fs),
      ih (fun x hx => hn x (List.mem_cons_of_mem f hx))]
    ring

theorem flatten_slice (F : List (List Nat)) (n k : Nat)
    (hn : ∀ f ∈ F, f.length = n) (hk : k < F.length) :
    (F.flatten.drop (k * n)).take n = F.getD k [] := by
  induction F generalizing k with
  | nil => simp at hk
  | cons f fs ih =>
    cases k with
    | zero =>
      have hf : f.length = n := hn f (List.mem_cons_self f fs)
      simp only [Nat.zero_mul, List.drop_zero, List.flatten_cons, List.getD_cons_zero]
      rw [← hf, List.take_left]
    | succ k' =>
      have hf : f.length = n := hn f (List.mem_cons_self f fs)
      have harith : (k' + 1) * n = f.length + k' * n := by rw [hf]; ring
      simp only [List.flatten_cons, List.getD_cons_succ]
      rw [harith, List.drop_append]
      exact ih k' (fun x hx => hn x (List.mem_cons_of_mem f hx)) (by simpa using hk)

theorem blankOk_of_valid (t : Track) (f : List Nat)
    (hf : ∀ b ∈ blankBits t, f.getD (b - 1) 1 = 0) :
    blankOk ((blankBits t).map (· - 1)) f = true := by
  unfold blankOk
  rw [List.all_eq_true]
  intro bi hbi
  rcases List.mem_map.mp hbi with ⟨b, hb, rfl⟩
  simpa [List.getD] using hf b hb

theorem frameScoreGo_succ (bits : List Nat) (fb : Nat) (bl : List Nat) (total rem start : Nat) :
    frameScoreGo bits fb bl total (rem + 1) start =
      if start + fb > total then 0
      else if blankOk bl ((bits.drop start).take fb) then
        frameScoreGo bits fb bl total rem (start + fb) + 1
      else 0 := rfl

theorem searchLoop_succ (bits : List Nat) (fb : Nat) (bl : List Nat) (total : Nat)
    (searchEnd : Int) (fuel candidate bestOff bestScore : Nat) :
    searchLoop bits fb bl total searchEnd (fuel + 1) candidate bestOff bestScore =
      if (candidate : Int) < searchEnd then
        let sc := frameScore bits fb bl total candidate
        if sc > bestScore then
          if sc ≥ LOCK_THRESHOLD then (candidate, sc)
          else searchLoop bits fb bl total searchEnd fuel (candidate + 1) candidate sc
        else searchLoop bits fb bl total searchEnd fuel (candidate + 1) bestOff bestScore
      else (bestOff, bestScore) := rfl

/-- C3 amended: for a stream of K consecutive valid frames (blanks 0,
other bits arbitrary) the claimed behavior — lock at offset 0 with
score min(3, K) — holds exactly when K ≥ 4: then lock_offset = 0,
score = 3 = min(3, K) and locked; for K ≤ 3 the search range
min(500, K·frame_bits − 3·frame_bits) is empty, so the score is 0,
lock_offset is 0 and locked is false. -/
theorem sync_frames_locks_from_four_frames (t : Track) (F : List (List Nat))
    (hF : ∀ f ∈ F, f.length = frameBits t ∧ ∀ b ∈ blankBits t, f.getD (b - 1) 1 = 0) :
    (4 ≤ F.length →
      (sync_frames F.flatten t 500).lock_offset = 0 ∧
      (sync_frames F.flatten t 500).score = min 3 F.length ∧
      (sync_frames F.flatten t 500).locked = true) ∧
    (F.length ≤ 3 →
      (sync_frames F.flatten t 500).lock_offset = 0 ∧
      (sync_frames F.flatten t 500).score = 0 ∧
      (sync_frames F.flatten t 500).locked = false) := by
  have hlen : ∀ f ∈ F, f.length = frameBits t := fun f hf => (hF f hf).1
  have htotal : F.flatten.length = F.length * frameBits t :=
    flatten_length_of_uniform F (frameBits t) hlen
  have hfb : 1 ≤ frameBits t := by cases t <;> decide
  constructor
  · intro hK
    have hscore :
        frameScore F.flatten (frameBits t) ((blankBits t).map (· - 1)) F.flatten.length 0 = 3 := by
      have hslice : ∀ k, k < F.length →
          blankOk ((blankBits t).map (· - 1))
            ((F.flatten.drop (k * frameBits t)).take (frameBits t)) = true := by
        intro k hk
        rw [flatten_slice F (frameBits t) k hlen hk]
        have hmem : F.getD k [] ∈ F := by
          rw [List.getD_eq_getElem F [] hk]
          exact List.getElem_mem hk
        exact blankOk_of_valid t _ (hF _ hmem).2
      unfold frameScore
      have hLT : LOCK_THRESHOLD = 3 := rfl
      have h4fb : 4 * frameBits t ≤ F.flatten.length := by
        rw [htotal]
        exact Nat.mul_le_mul_right _ hK
      rw [hLT]
      rw [frameScoreGo_succ, if_neg (by omega), if_pos (by simpa using hslice 0 (by omega))]
      rw [frameScoreGo_succ, if_neg (by omega),
        if_pos (by simpa [Nat.one_mul] using hslice 1 (by omega))]
      rw [frameScoreGo_succ, if_neg (by omega),
        if_pos (by simpa [Nat.two_mul] using hslice 2 (by omega))]
      rfl
    have hse : (0 : Int) < min ((500 : Nat) : Int)
        ((F.flatten.length : Int) - (frameBits t : Int) * LOCK_THRESHOLD) := by
      have hLT : LOCK_THRESHOLD = 3 := rfl
      rw [hLT, htotal]
      have : (4 : Int) * (frameBits t : Int) ≤ (F.length : Int) * (frameBits t : Int) := by
        apply mul_le_mul_of_nonneg_right _ (by positivity)
        exact_mod_cast hK
      push_cast
      omega
    have hbest : searchLoop F.flatten (frameBits t) ((blankBits t).map (· - 1))
        F.flatten.length
        (min ((500 : Nat) : Int) ((F.flatten.length : Int) - (frameBits t : Int) * LOCK_THRESHOLD))
        500 0 0 0 = (0, 3) := by
      rw [show (500 : Nat) = 499 + 1 from rfl, searchLoop_succ, if_pos (by exact_mod_cast hse)]
      simp only [hscore]
      norm_num [LOCK_THRESHOLD]
    refine ⟨?_, ?_, ?_⟩
    · show (searchLoop _ _ _ _ _ _ _ _ _).1 = 0
      rw [hbest]
    · show (searchLoop _ _ _ _ _ _ _ _ _).2 = min 3 F.length
      rw [hbest]
      omega
    · show decide ((searchLoop _ _ _ _ _ _ _ _ _).2 ≥ LOCK_THRESHOLD) = true
      rw [hbest]
      decide
  · intro hK
    have hse : ¬ ((0 : Int) < min ((500 : Nat) : Int)
        ((F.flatten.length : Int) - (frameBits t : Int) * LOCK_THRESHOLD)) := by
      have hLT : LOCK_THRESHOLD = 3 := rfl
      rw [hLT, htotal]
      have : (F.length : Int) * (frameBits t : Int) ≤ (3 : Int) * (frameBits t : Int) := by
        apply mul_le_mul_of_nonneg_right _ (by positivity)
        exact_mod_cast hK
      push_cast
      omega
    have hbest : searchLoop F.flatten (frameBits t) ((blankBits t).map (· - 1))
        F.flatten.length
        (min ((500 : Nat) : Int) ((F.flatten.length : Int) - (frameBits t : Int) * LOCK_THRESHOLD))
        500 0 0 0 = (0, 0) := by
      rw [show (500 : Nat) = 499 + 1 from rfl, searchLoop_succ, if_neg (by exact_mod_cast hse)]
    refine ⟨?_, ?_, ?_⟩
    · show (searchLoop _ _ _ _ _ _ _ _ _).1 = 0
      rw [hbest]
    · show (searchLoop _ _ _ _ _ _ _ _ _).2 = 0
      rw [hbest]
    · show decide ((searchLoop _ _ _ _ _ _ _ _ _).2 ≥ LOCK_THRESHOLD) = false
      rw [hbest]
      decide

set_option maxRecDepth 4000 in
/-- Witness for C3 amended: four all-zero TD frames lock at offset 0
with score 3. -/
theorem sync_frames_locks_from_four_frames_witness :
    (4 ≤ (List.replicate 4 (List.replicate 94 (0 : Nat))).length →
      (sync_frames (List.replicate 4 (List.replicate 94 (0 : Nat))).flatten Track.TD 500).lock_offset = 0 ∧
      (sync_frames (List.replicate 4 (List.replicate 94 (0 : Nat))).flatten Track.TD 500).score =
        min 3 (List.replicate 4 (List.replicate 94 (0 : Nat))).length ∧
      (sync_frames (List.replicate 4 (List.replicate 94 (0 : Nat))).flatten Track.TD 500).locked = true) ∧
    (4 ≤ (List.replicate 4 (List.replicate 94 (0 : Nat))).length) :=
  ⟨(sync_frames_locks_from_four_frames Track.TD _ (by decide)).1, by decide⟩

/-! ## Frame scheduler blank-bit invariant (C4) -/

/-- Blank positions of a frame state read 0. -/
def blankZero (t : Track) (f : List Nat) : Prop :=
  ∀ b ∈ blankBits t, f.getD (b - 1) 1 = 0

theorem lookup_mem (l : List (String × Nat)) (k : String) (v : Nat)
    (h : l.lookup k = some v) : (k, v) ∈ l := by
  induction l with
  | nil => simp [List.lookup] at h
  | cons p ps ih =>
    obtain ⟨a, b⟩ := p
    rw [List.lookup] at h
    cases hk : (k == a) with
    | true =>
      rw [hk] at h
      replace h : some b = some v := h
      have hke : k = a := by simpa using hk
      have hv : b = v := Option.some.inj h
      rw [hke, ← hv]
      exact List.mem_cons_self _ _
    | false =>
      rw [hk] at h
      replace h : List.lookup k ps = some v := h
      exact List.mem_cons_of_mem _ (ih h)

/-- Every channel-map entry has a 1-based bit number within the frame
width which is not a blank slot. -/
theorem channels_val_bounds (t : Track) :
    ∀ p ∈ channels t, 1 ≤ p.2 ∧ p.2 ≤ frameBits t ∧ p.2 ∉ blankBits t := by
  cases t <;> decide

theorem blankBits_bounds (t : Track) : ∀ b ∈ blankBits t, 1 ≤ b ∧ b ≤ frameBits t := by
  cases t <;> decide

theorem set_channel_blank_zero (t : Track) (frame : List Nat) (ch : String)
    (active : Bool) (frame' : List Nat)
    (hfz : blankZero t frame)
    (h : set_channel t frame ch active = Except.ok frame') :
    blankZero t frame' := by
  unfold set_channel at h
  cases hlk : (channels t).lookup ch with
  | none =>
    rw [hlk] at h
    replace h : (Except.error ("Unknown " ++ ch) : Except String (List Nat)) =
      Except.ok frame' := h
    simp at h
  | some bn =>
    rw [hlk] at h
    replace h : (if bn ∈ blankBits t then
        (Except.error ("Bit " ++ toString bn ++ " is BLANK") : Except String (List Nat))
      else Except.ok (frame.set (bn - 1) (if active then 1 else 0))) =
        Except.ok frame' := h
    by_cases hbb : bn ∈ blankBits t
    · rw [if_pos hbb] at h
      simp at h
    · rw [if_neg hbb] at h
      have hframe' : frame' = frame.set (bn - 1) (if active then 1 else 0) :=
        (Except.ok.inj h).symm
      intro b hb
      have hbn := channels_val_bounds t (ch, bn) (lookup_mem _ _ _ hlk)
      have hbbd := blankBits_bounds t b hb
      have hne : bn - 1 ≠ b - 1 := by
        intro heq
        exact hbb (by
          have : bn = b := by omega
          rw [this]; exact hb)
      rw [hframe', List.getD_eq_getD_get?, List.get?_set_ne _ _ hne,
        ← List.getD_eq_getD_get? (frame) (1) (b - 1)]
      exact hfz b hb

theorem fbLoop_hist_blank (t : Track) :
    ∀ (events : List PyEvent) (st st' : BuildOut),
      (∀ f ∈ st.hist, blankZero t f) → blankZero t st.frame →
      fbLoop t events st = Except.ok st' →
      (∀ f ∈ st'.hist, blankZero t f) ∧ blankZero t st'.frame := by
  intro events
  induction events with
  | nil =>
    intro st st' hh hf h
    rw [fbLoop] at h
    obtain rfl := Except.ok.inj h
    exact ⟨hh, hf⟩
  | cons e rest ih =>
    intro st st' hh hf h
    rw [fbLoop] at h
    cases hsc : set_channel t st.frame e.channel e.active with
    | error m => rw [hsc] at h; simp at h
    | ok frame2 =>
      rw [hsc] at h
      refine ih _ st' ?_ ?_ h
      · intro f hfm
        rcases List.mem_append.mp hfm with hfm | hfm
        · exact hh f hfm
        · rw [List.mem_singleton.mp hfm]
          exact hf
      · exact set_channel_blank_zero t st.frame e.channel e.active frame2 hf hsc

theorem replicate_blank_zero (t : Track) : blankZero t (List.replicate (frameBits t) 0) := by
  intro b hb
  have hbb := blankBits_bounds t b hb
  rw [List.getD_eq_getElem (List.replicate (frameBits t) 0) 1 (by simp; omega)]
  simp

/-- C4: every frame state that FrameBuilder.build (frame_builder.py)
hands to the fill routine — the frames encoded into the output PCM
stream — has 0 at every blank index, for every event list and duration
(a build that raises contributes no frames). -/
theorem frame_builder_blank_bits_zero (t : Track) (events : List PyEvent) (dur : Nat) :
    ∀ f ∈ buildHist t events dur, ∀ b ∈ blankBits t, f.getD (b - 1) 1 = 0 := by
  unfold buildHist
  cases hb : fbBuildFull t events dur with
  | error m => simp
  | ok st =>
    unfold fbBuildFull at hb
    simp only at hb
    cases hloop : fbLoop t (sortEvents events)
        ⟨List.replicate (totalSamples t dur) 0, BMC_LOW, 0,
          List.replicate (frameBits t) 0, []⟩ with
    | error m => rw [hloop] at hb; simp at hb
    | ok stL =>
      rw [hloop] at hb
      have hinv := fbLoop_hist_blank t (sortEvents events) _ stL
        (by intro f hf; simp at hf) (replicate_blank_zero t) hloop
      obtain rfl : (⟨(fillFrames t stL.frame stL.out stL.lvl stL.cursor (totalSamples t dur)).1,
          (fillFrames t stL.frame stL.out stL.lvl stL.cursor (totalSamples t dur)).2,
          totalSamples t dur, stL.frame, stL.hist ++ [stL.frame]⟩ : BuildOut) = st :=
        Except.ok.inj hb
      intro f hf
      replace hf : f ∈ stL.hist ++ [stL.frame] := hf
      rcases List.mem_append.mp hf with hf | hf
      · exact hinv.1 f hf
      · rw [List.mem_singleton.mp hf]
        exact hinv.2

/-- Witness for C4: the build for one rolfe_mouth activation at sample 0
produces the updated frame among its encoded frames, and its blank bit
56 reads 0. -/
theorem frame_builder_blank_bits_zero_witness :
    ((List.replicate 94 0).set 0 1) ∈ buildHist Track.TD [⟨0, "rolfe_mouth", true⟩] 846 ∧
    56 ∈ blankBits Track.TD ∧
    ((List.replicate 94 0).set 0 1).getD (56 - 1) 1 = 0 :=
  ⟨by decide, by decide,
    frame_builder_blank_bits_zero Track.TD [⟨0, "rolfe_mouth", true⟩] 846 _ (by decide)
      56 (by decide)⟩

/-! ## Torn frames in frame_builder.py (C2) -/

/-- Failing input for the snap-before-compare claim: one valid event at
time 0.01 s (sample anchor int(0.01·44100) = 441, mid-frame) and
duration 0.01 s (441 samples, rounded up to one 846-sample frame). -/
def tornEvents : List PyEvent := [⟨441, "rolfe_mouth", true⟩]

/-- Output samples of frame_builder.py's build at the failing input. -/
def fbTornOutput : List Int :=
  match fbBuild Track.TD tornEvents 441 with
  | Except.ok o => o
  | Except.error _ => []

set_option maxRecDepth 8000 in
/-- C2: frame_builder.py's FrameBuilder.build does not snap event
positions to frame boundaries: at the failing input its whole output is
one 846-sample frame-aligned window that contains a 13-sample
equal-level run — samples [0, 441) encode the pre-update all-zero frame
and [441, 846) the post-update frame — so the window is not the
encoding of any single frame state from any encoder level: the build
emits a torn frame, contradicting the claimed coalescing. -/
theorem frame_builder_torn_frame :
    fbTornOutput.length = 846 ∧
    13 ∈ runsEq fbTornOutput ∧
    ∀ (lvl : Int) (f : List Nat), ((encode_bits lvl f).1 == fbTornOutput) = false := by
  refine ⟨by decide, by decide, ?_⟩
  intro lvl f
  cases hbeq : ((encode_bits lvl f).1 == fbTornOutput) with
  | false => rfl
  | true =>
    have heq : (encode_bits lvl f).1 = fbTornOutput := eq_of_beq hbeq
    have h13 : 13 ∈ runsEq (encode_bits lvl f).1 := by
      rw [heq]
      decide
    exact absurd (runsEq_encode_le f lvl 13 h13) (by omega)

/-! ## Equivalence of the two frame builders (C10) -/

set_option maxRecDepth 8000 in
/-- C10 counterexample: on a valid mid-frame event (sample anchor 441)
the two builds return different PCM byte strings — they differ already
at byte index 8 (frame_builder.py fills the pre-update frame up to the
raw event sample, export_bridge.py snaps and coalesces the event into
the frame start). -/
theorem builders_differ_midframe_event :
    fbBuildBytes Track.TD [⟨441, "rolfe_mouth", true⟩] 441 ≠
    ebBuildBytes Track.TD [⟨441, "rolfe_mouth", true⟩] 441 := by
  intro h
  have h2 := congrArg
    (fun r => (match r with
      | Except.ok o => o
      | Except.error _ => ([] : List Nat)).getD 8 999) h
  simp only at h2
  exact absurd h2 (by decide)

theorem fillFrames_ge (t : Track) (fr : List Nat) (out : List Int) (lvl : Int)
    (pos endS : Nat) (h : endS ≤ pos) : fillFrames t fr out lvl pos endS = (out, lvl) := by
  unfold fillFrames
  cases endS with
  | zero => rfl
  | succ n => simp [fillFramesGo, show ¬ pos < n + 1 by omega]

theorem mem_insertEv (e x : PyEvent) (l : List PyEvent) :
    x ∈ insertEv e l ↔ x = e ∨ x ∈ l := by
  induction l with
  | nil => simp [insertEv]
  | cons y ys ih =>
    rw [insertEv]
    by_cases h : y.sample < e.sample
    · rw [if_pos h]
      simp only [List.mem_cons, ih]
      tauto
    · rw [if_neg h]
      simp only [List.mem_cons]

theorem mem_sortEvents (x : PyEvent) (l : List PyEvent) : x ∈ sortEvents l ↔ x ∈ l := by
  induction l with
  | nil => simp [sortEvents]
  | cons y ys ih =>
    rw [sortEvents, mem_insertEv]
    simp only [List.mem_cons, ih]

theorem insertEv_pairwise (e : PyEvent) (l : List PyEvent)
    (h : l.Pairwise (fun a b => a.sample ≤ b.sample)) :
    (insertEv e l).Pairwise (fun a b => a.sample ≤ b.sample) := by
  induction l with
  | nil => simp [insertEv]
  | cons y ys ih =>
    rw [insertEv]
    rcases List.pairwise_cons.mp h with ⟨hy, hys⟩
    by_cases hc : y.sample < e.sample
    · rw [if_pos hc, List.pairwise_cons]
      constructor
      · intro z hz
        rcases (mem_insertEv e z ys).mp hz with rfl | hz
        · omega
        · exact hy z hz
      · exact ih hys
    · rw [if_neg hc, List.pairwise_cons]
      constructor
      · intro z hz
        rcases List.mem_cons.mp hz with rfl | hz
        · omega
        · have := hy z hz
          omega
      · exact h

theorem sortEvents_pairwise (l : List PyEvent) :
    (sortEvents l).Pairwise (fun a b => a.sample ≤ b.sample) := by
  induction l with
  | nil => simp [sortEvents]
  | cons y ys ih => exact insertEv_pairwise y (sortEvents ys) ih

theorem set_channel_ok (t : Track) (fr : List Nat) (ch : String) (active : Bool)
    (h : ((channels t).lookup ch).isSome = true) :
    ∃ bn, (channels t).lookup ch = some bn ∧
      set_channel t fr ch active = Except.ok (fr.set (bn - 1) (if active then 1 else 0)) := by
  obtain ⟨bn, hbn⟩ := Option.isSome_iff_exists.mp h
  refine ⟨bn, hbn, ?_⟩
  unfold set_channel
  rw [hbn]
  show (if bn ∈ blankBits t then
      (Except.error ("Bit " ++ toString bn ++ " is BLANK") : Except String (List Nat))
    else Except.ok (fr.set (bn - 1) (if active then 1 else 0))) = _
  rw [if_neg ((channels_val_bounds t (ch, bn) (lookup_mem _ _ _ hbn)).2.2)]

/-- The two event loops compute the same output samples, encoder level,
cursor and frame state whenever every event's sample anchor is a
multiple of frame_samples: for an aligned event the snap is the
identity, and the coalesce branch of the export_bridge loop coincides
with a zero-length fill of the frame_builder loop. -/
theorem loops_agree (t : Track) :
    ∀ (evs : List PyEvent) (o : List Int) (lv : Int) (cur : Nat) (fr : List Nat)
      (h1 h2 : List (List Nat)),
      evs.Pairwise (fun a b => a.sample ≤ b.sample) →
      (∀ e ∈ evs, frameSamples t ∣ e.sample) →
      (∀ e ∈ evs, ((channels t).lookup e.channel).isSome = true) →
      (∀ e ∈ evs, cur ≤ e.sample) →
      ∃ r1 r2 : BuildOut,
        fbLoop t evs ⟨o, lv, cur, fr, h1⟩ = Except.ok r1 ∧
        ebLoop t evs ⟨o, lv, cur, fr, h2⟩ = Except.ok r2 ∧
        r1.out = r2.out ∧ r1.lvl = r2.lvl ∧ r1.cursor = r2.cursor ∧ r1.frame = r2.frame := by
  intro evs
  induction evs with
  | nil =>
    intro o lv cur fr h1 h2 _ _ _ _
    exact ⟨_, _, rfl, rfl, rfl, rfl, rfl, rfl⟩
  | cons e rest ih =>
    intro o lv cur fr h1 h2 hsort halign hvalid hcur
    obtain ⟨bn, hbn, hsc⟩ :=
      set_channel_ok t fr e.channel e.active (hvalid e (List.mem_cons_self _ _))
    have hsnap : e.sample / frameSamples t * frameSamples t = e.sample :=
      Nat.div_mul_cancel (halign e (List.mem_cons_self _ _))
    rcases List.pairwise_cons.mp hsort with ⟨hhead, hrest⟩
    have hcur_e : cur ≤ e.sample := hcur e (List.mem_cons_self _ _)
    have halign' : ∀ z ∈ rest, frameSamples t ∣ z.sample :=
      fun z hz => halign z (List.mem_cons_of_mem _ hz)
    have hvalid' : ∀ z ∈ rest, ((channels t).lookup z.channel).isSome = true :=
      fun z hz => hvalid z (List.mem_cons_of_mem _ hz)
    rw [fbLoop, ebLoop, hsc]
    simp only [hsnap]
    by_cases hle : e.sample ≤ cur
    · have he : e.sample = cur := le_antisymm hle hcur_e
      rw [if_pos (show e.sample ≤ (⟨o, lv, cur, fr, h2⟩ : BuildOut).cursor from hle)]
      rw [fillFrames_ge t fr o lv cur e.sample hle]
      rw [he]
      exact ih o lv cur (fr.set (bn - 1) (if e.active then 1 else 0)) (h1 ++ [fr]) h2
        hrest halign' hvalid' (fun z hz => le_trans (he ▸ hhead z hz) le_rfl)
    · rw [if_neg (show ¬ e.sample ≤ (⟨o, lv, cur, fr, h2⟩ : BuildOut).cursor from hle)]
      exact ih (fillFrames t fr o lv cur e.sample).1 (fillFrames t fr o lv cur e.sample).2
        e.sample (fr.set (bn - 1) (if e.active then 1 else 0)) (h1 ++ [fr]) (h2 ++ [fr])
        hrest halign' hvalid' (fun z hz => hhead z hz)

/-- C10 amended: the two Frame Scheduler implementations return the same
PCM byte string for every track, duration, and event list of valid
channels whose sample anchors int(time·44100) are frame-aligned
(multiples of frame_samples); they differ on mid-frame events, which
only export_bridge.py snaps and coalesces. -/
theorem fbBuildFull_ok (t : Track) (events : List PyEvent) (dur : Nat) (r : BuildOut)
    (h : fbLoop t (sortEvents events)
      ⟨List.replicate (totalSamples t dur) 0, BMC_LOW, 0,
        List.replicate (frameBits t) 0, []⟩ = Except.ok r) :
    fbBuildFull t events dur = Except.ok
      ⟨(fillFrames t r.frame r.out r.lvl r.cursor (totalSamples t dur)).1,
        (fillFrames t r.frame r.out r.lvl r.cursor (totalSamples t dur)).2,
        totalSamples t dur, r.frame, r.hist ++ [r.frame]⟩ := by
  unfold fbBuildFull
  simp only [h]

theorem ebBuildFull_ok (t : Track) (events : List PyEvent) (dur : Nat) (r : BuildOut)
    (h : ebLoop t (sortEvents events)
      ⟨List.replicate (totalSamples t dur) 0, BMC_LOW, 0,
        List.replicate (frameBits t) 0, []⟩ = Except.ok r) :
    ebBuildFull t events dur = Except.ok
      ⟨(fillFrames t r.frame r.out r.lvl r.cursor (totalSamples t dur)).1,
        (fillFrames t r.frame r.out r.lvl r.cursor (totalSamples t dur)).2,
        totalSamples t dur, r.frame, r.hist ++ [r.frame]⟩ := by
  unfold ebBuildFull
  simp only [h]

theorem builders_agree_on_aligned_events (t : Track) (events : List PyEvent) (dur : Nat)
    (hvalid : ∀ e ∈ events, ((channels t).lookup e.channel).isSome = true)
    (halign : ∀ e ∈ events, frameSamples t ∣ e.sample) :
    fbBuildBytes t events dur = ebBuildBytes t events dur := by
  obtain ⟨r1, r2, hf, he, ho, hl, hc, hfr⟩ := loops_agree t (sortEvents events)
    (List.replicate (totalSamples t dur) 0) BMC_LOW 0 (List.replicate (frameBits t) 0) [] []
    (sortEvents_pairwise events)
    (fun e hme => halign e ((mem_sortEvents e events).mp hme))
    (fun e hme => hvalid e ((mem_sortEvents e events).mp hme))
    (fun e _ => Nat.zero_le _)
  unfold fbBuildBytes ebBuildBytes fbBuild ebBuild
  rw [fbBuildFull_ok t events dur r1 hf, ebBuildFull_ok t events dur r2 he]
  simp only [Except.map]
  rw [ho, hl, hc, hfr]

/-- Witness for C10 amended: one frame-aligned event (sample 846) gives
identical byte strings from both builders. -/
theorem builders_agree_on_aligned_events_witness :
    fbBuildBytes Track.TD [⟨846, "rolfe_mouth", true⟩] 900 =
    ebBuildBytes Track.TD [⟨846, "rolfe_mouth", true⟩] 900 :=
  builders_agree_on_aligned_events Track.TD [⟨846, "rolfe_mouth", true⟩] 900
    (by decide) (by decide)

/-! ## rshw signalData serialization (C9) -/

theorem foldl_append_generic (g : Nat → List Nat) (l : List Nat) (acc : List Nat) :
    l.foldl (fun a n => a ++ g n) acc = acc ++ (l.map g).flatten := by
  induction l generalizing acc with
  | nil => simp
  | cons x xs ih => simp [ih, List.append_assoc]

theorem tdPartCode_eq_spec (td : List (List Nat)) (n : Nat) :
    tdPartCode td n =
      (td.getD (⌊((n : ℚ) / 60) / ((94 : ℚ) / 4800)⌋).toNat []).enum.filterMap
        (fun p => if p.2 ≠ 0 then some (p.1 + 1) else none) := by
  unfold tdPartCode
  have hc : ((RSHW_FPS : Nat) : ℚ) = 60 ∧ ((TD_FRAME_BITS : Nat) : ℚ) = 94 ∧
      ((BAUD_RATE : Nat) : ℚ) = 4800 := by
    norm_num [RSHW_FPS, TD_FRAME_BITS, BAUD_RATE]
  rw [hc.1, hc.2.1, hc.2.2]
  by_cases h : (⌊((n : ℚ) / 60) / ((94 : ℚ) / 4800)⌋ : Int) < (td.length : Int)
  · rw [if_pos h]
  · rw [if_neg h]
    have hnn : (0 : Int) ≤ ⌊((n : ℚ) / 60) / ((94 : ℚ) / 4800)⌋ :=
      Int.floor_nonneg.mpr (by positivity)
    have hge : td.length ≤ (⌊((n : ℚ) / 60) / ((94 : ℚ) / 4800)⌋).toNat := by omega
    rw [List.getD_eq_default td [] hge]
    simp

theorem bdPartCode_eq_spec (bd : List (List Nat)) (n : Nat) :
    bdPartCode bd n =
      (bd.getD (⌊((n : ℚ) / 60) / ((96 : ℚ) / 4800)⌋).toNat []).enum.filterMap
        (fun p => if p.2 ≠ 0 then some (p.1 + 1 + 150) else none) := by
  unfold bdPartCode
  have hc : ((RSHW_FPS : Nat) : ℚ) = 60 ∧ ((BD_FRAME_BITS : Nat) : ℚ) = 96 ∧
      ((BAUD_RATE : Nat) : ℚ) = 4800 := by
    norm_num [RSHW_FPS, BD_FRAME_BITS, BAUD_RATE]
  rw [hc.1, hc.2.1, hc.2.2]
  have hfun : (fun p : Nat × Nat => if p.2 ≠ 0 then some (p.1 + 151) else none) =
      (fun p : Nat × Nat => if p.2 ≠ 0 then some (p.1 + 1 + 150) else none) := by
    funext p
    by_cases hp : p.2 ≠ 0 <;> simp [hp]
  rw [hfun]
  by_cases h : (⌊((n : ℚ) / 60) / ((96 : ℚ) / 4800)⌋ : Int) < (bd.length : Int)
  · rw [if_pos h]
  · rw [if_neg h]
    have hnn : (0 : Int) ≤ ⌊((n : ℚ) / 60) / ((96 : ℚ) / 4800)⌋ :=
      Int.floor_nonneg.mpr (by positivity)
    have hge : bd.length ≤ (⌊((n : ℚ) / 60) / ((96 : ℚ) / 4800)⌋).toNat := by omega
    rw [List.getD_eq_default bd [] hge]
    simp

/-- C9: for every decoded TD and BD frame list and duration, the
serialized signalData array is exactly the claim's description:
int(duration·60) groups, one per 60 Hz frame at t = n/60, each the
delimiter 0 followed by (bit_index+1) for the set bits of the TD frame
at index floor(t/(94/4800)) and (bit_index+1+150) for the set bits of
the BD frame at index floor(t/(96/4800)). -/
theorem signal_data_spec_eq (td bd : List (List Nat)) (dur : ℚ) :
    build_signal_data td bd dur = signal_data_spec td bd dur := by
  unfold build_signal_data signal_data_spec
  rw [foldl_append_generic]
  have hfps : ((RSHW_FPS : Nat) : ℚ) = 60 := by norm_num [RSHW_FPS]
  rw [hfps]
  simp only [List.nil_append]
  have hfun : (fun n : Nat => 0 :: (tdPartCode td n ++ bdPartCode bd n)) =
      (fun n : Nat =>
        0 :: ((td.getD (⌊((n : ℚ) / 60) / ((94 : ℚ) / 4800)⌋).toNat []).enum.filterMap
            (fun p => if p.2 ≠ 0 then some (p.1 + 1) else none) ++
          (bd.getD (⌊((n : ℚ) / 60) / ((96 : ℚ) / 4800)⌋).toNat []).enum.filterMap
            (fun p => if p.2 ≠ 0 then some (p.1 + 1 + 150) else none))) := by
    funext n
    rw [tdPartCode_eq_spec, bdPartCode_eq_spec]
  rw [hfun]

/-! ## Hardware conformance verdict (C8) -/

/-- Error rate as the claim states it: n_errors / (n_bits + n_errors)
(0 when there are no runs at all, matching the guarded code value). -/
def spec_error_rate (sr : Nat) (samples : List Int) (tol : ℚ) : ℚ :=
  let p := (mkBMCDecoder sr BAUD_RATE tol 200).decode samples
  (p.2.length : ℚ) / ((p.1.length + p.2.length : Nat) : ℚ)

/-- Blank-bit pass rate as the claim states it:
passing_frames / total_frames. -/
def spec_blank_rate (t : Track) (sr : Nat) (samples : List Int) (tol : ℚ) : ℚ :=
  let p := (mkBMCDecoder sr BAUD_RATE tol 200).decode samples
  let sync := sync_frames (p.1.map (·.bit)) t 500
  (((sync.frames.filter (·.blank_ok)).length : Nat) : ℚ) / ((sync.frames.length : Nat) : ℚ)

/-- Lock score of one track's pipeline. -/
def spec_lock_score (t : Track) (sr : Nat) (samples : List Int) (tol : ℚ) : Nat :=
  let p := (mkBMCDecoder sr BAUD_RATE tol 200).decode samples
  (sync_frames (p.1.map (·.bit)) t 500).score

/-- One track satisfies all three acceptance thresholds. -/
def track_passes (t : Track) (sr : Nat) (samples : List Int) (tol : ℚ) : Prop :=
  spec_error_rate sr samples tol ≤ 2/100 ∧
  spec_blank_rate t sr samples tol ≥ 98/100 ∧
  3 ≤ spec_lock_score t sr samples tol

/-- One human-readable reason naming the track per violated threshold,
in the code's emission order. -/
def trackReasonList (t : Track) (sr : Nat) (samples : List Int) (tol : ℚ) : List String :=
  (if 2/100 < spec_error_rate sr samples tol then
    [trackName t ++ ": error rate exceeds limit"] else []) ++
  (if spec_lock_score t sr samples tol < 3 then
    [trackName t ++ ": failed to lock on frame boundaries"] else []) ++
  (if spec_blank_rate t sr samples tol < 98/100 then
    [trackName t ++ ": blank-bit integrity below limit"] else [])

theorem rate_guard_eq (a m : Nat) (h : a ≤ m) :
    (a : ℚ) / ((max m 1 : Nat) : ℚ) = (a : ℚ) / (m : ℚ) := by
  rcases Nat.eq_zero_or_pos m with rfl | hm
  · have ha : a = 0 := by omega
    subst ha
    simp
  · rw [max_eq_left (by omega)]

theorem sync_locked_eq (bits : List Nat) (t : Track) (ms : Nat) :
    (sync_frames bits t ms).locked =
      decide (3 ≤ (sync_frames bits t ms).score) := rfl

theorem empty3_iff (c1 c2 c3 : Prop) [Decidable c1] [Decidable c2] [Decidable c3]
    (a b c : String) :
    (((if c1 then [a] else []).isEmpty && (if c2 then [b] else []).isEmpty &&
      (if c3 then [c] else []).isEmpty) = true) ↔ (¬c1 ∧ ¬c2 ∧ ¬c3) := by
  by_cases h1 : c1 <;> by_cases h2 : c2 <;> by_cases h3 : c3 <;> simp [h1, h2, h3]

theorem run_sim_track_spec (t : Track) (sr : Nat) (samples : List Int) (tol : ℚ) :
    ((run_sim_track t sr samples tol).1 = true ↔ track_passes t sr samples tol) ∧
    (run_sim_track t sr samples tol).2 = trackReasonList t sr samples tol := by
  have hM : MAX_ERROR_RATE = 2/100 := by norm_num [MAX_ERROR_RATE]
  have hB : MIN_BLANK_BIT_RATE = 98/100 := by norm_num [MIN_BLANK_BIT_RATE]
  have hg1 : ∀ a b : Nat,
      ((b : ℚ) / ((max (a + b) 1 : Nat) : ℚ)) = (b : ℚ) / ((a + b : Nat) : ℚ) :=
    fun a b => rate_guard_eq b (a + b) (by omega)
  have hg2 : ∀ (F : List DecodedFrame) (f : DecodedFrame → Bool),
      (((F.filter f).length : ℚ) / ((max F.length 1 : Nat) : ℚ)) =
        ((F.filter f).length : ℚ) / ((F.length : Nat) : ℚ) :=
    fun F f => rate_guard_eq (F.filter f).length F.length (by
      exact List.length_filter_le f F)
  unfold run_sim_track track_passes trackReasonList spec_error_rate spec_blank_rate
    spec_lock_score
  simp only [hM, hB, hg1, hg2, sync_locked_eq, Bool.not_eq_true', decide_eq_false_iff_not,
    not_le]
  constructor
  · rw [empty3_iff]
    constructor
    · rintro ⟨a, b, c⟩
      exact ⟨not_lt.mp a, not_lt.mp c, not_lt.mp b⟩
    · rintro ⟨a, b, c⟩
      exact ⟨not_lt.mpr a, not_lt.mpr c, not_lt.mpr b⟩
  · trivial

/-- C8: overall verdict of the Hardware Conformance Simulator is PASS
iff on both tracks error_rate = errors/(bits+errors) is at most 0.02,
blank_ok_rate = passing/total is at least 0.98, and the sync lock score
reaches 3; each violated threshold on either track contributes exactly
one reason string naming that track, in track order. -/
theorem hardware_sim_verdict (sr : Nat) (td bd : List Int) (tol : ℚ) :
    ((run_sim_core sr td bd tol).1 = true ↔
      (track_passes .TD sr td tol ∧ track_passes .BD sr bd tol)) ∧
    (run_sim_core sr td bd tol).2 =
      trackReasonList .TD sr td tol ++ trackReasonList .BD sr bd tol := by
  unfold run_sim_core
  simp only []
  constructor
  · rw [Bool.and_eq_true]
    rw [(run_sim_track_spec .TD sr td tol).1, (run_sim_track_spec .BD sr bd tol).1]
  · rw [(run_sim_track_spec .TD sr td tol).2, (run_sim_track_spec .BD sr bd tol).2]

end SCME
